import Mathlib

/-!
# node-crawler: fork-id classification and the node table writer

A shallow embedding of

* `pkg/common/client_info.go`  (`ClientInfo`, `forkIDFilters`, `ForkIDName`),
* `pkg/crawlerdb/db.go`        (`forkIDFilters`, `forkIDName`, `UpdateNodes`, `CreateDB`),

together with a model of `vparser.ParseVersionString`, whose tests
(`pkg/vparser/vparser_test.go`) are part of the sources.

Values of go-ethereum, zrnt, geoip2 and `database/sql` are carried by the data
`UpdateNodes` reads from them; the filters, the decoder of the `eth2` entry, the
geolocation reader, the clock and the answers of the database driver are parameters.
The `ClientInfo` records the observations point to live in a heap that the loop of
`UpdateNodes` reads and writes: an observation holds the address of its record, and two
observations may hold the same address.
-/

set_option autoImplicit false

namespace NodeCrawler

/-! ## External library types -/

/-- Go `error` values; `Option Err` is Go's nil-able `error`, `none` being `nil`. -/
abbrev Err := String

/-- The type `forkid.ID` of go-ethereum: `Hash [4]byte` (the four bytes, in order) and
`Next uint64`. -/
structure ForkID where
  Hash : List Nat
  Next : Nat
deriving DecidableEq, Repr

/-- The type `forkid.Filter`: `func(id ID) error`. -/
abbrev Filter := ForkID → Option Err

/-- The five filters the registries are built from,
`forkid.NewStaticFilter(params.XChainConfig, params.XGenesisHash)`: they are values of
go-ethereum, taken as given. -/
structure StaticFilters where
  mainnet : Filter
  goerli : Filter
  sepolia : Filter
  classic : Filter
  mordor : Filter

/-- The struct `forkIDFilterer`, declared alike in both packages. -/
structure forkIDFilterer where
  name : String
  filter : Filter

/-- The loop `for _, target := range registry { if target.filter(fid) == nil { return target.name } }`
followed by `return ""`. -/
def rangeFilters (fid : ForkID) : List forkIDFilterer → String
  | [] => ""
  | target :: rest =>
    if target.filter fid = none then target.name else rangeFilters fid rest

namespace common

/-- The package variable `forkIDFilters` of `client_info.go`, lines 28-36. -/
def forkIDFilters (p : StaticFilters) : List forkIDFilterer :=
  [ { name := "mainnet", filter := p.mainnet },
    { name := "goerli", filter := p.goerli },
    { name := "sepolia", filter := p.sepolia },
    { name := "classic", filter := p.classic },
    { name := "mordor", filter := p.mordor } ]

/-- The function `ForkIDName` of `client_info.go`, lines 38-46. -/
def ForkIDName (p : StaticFilters) (fid : ForkID) : String :=
  rangeFilters fid (forkIDFilters p)

end common

namespace crawlerdb

/-- The package variable `forkIDFilters` of `db.go`, lines 33-41. -/
def forkIDFilters (p : StaticFilters) : List forkIDFilterer :=
  [ { name := "mainnet", filter := p.mainnet },
    { name := "goerli", filter := p.goerli },
    { name := "sepolia", filter := p.sepolia },
    { name := "classic", filter := p.classic },
    { name := "mordor", filter := p.mordor } ]

/-- The function `forkIDName` of `db.go`, lines 43-51. -/
def forkIDName (p : StaticFilters) (fid : ForkID) : String :=
  rangeFilters fid (forkIDFilters p)

end crawlerdb

/-! ## The data `UpdateNodes` reads -/

/-- The type `p2p.Cap` of go-ethereum: `Name string`, `Version uint`. -/
structure Cap where
  Name : String
  Version : Nat
deriving DecidableEq, Repr

/-- The method `p2p.Cap.String`, `fmt.Sprintf("%s/%d", cap.Name, cap.Version)`. -/
def Cap.String (c : Cap) : String :=
  c.Name ++ "/" ++ toString c.Version

/-- Two lowercase hexadecimal digits of a byte, as `%x` and `hex.EncodeToString` print it. -/
def hexByte (b : Nat) : String :=
  String.mk [Nat.digitChar (b / 16 % 16), Nat.digitChar (b % 16)]

/-- Lowercase hexadecimal rendering of a byte sequence. -/
def hexBytes (bs : List Nat) : String :=
  String.join (bs.map hexByte)

/-- The rendering `%v` of a Go byte array: the decimal bytes between brackets, blank
separated, as in `[252 100 236 4]`. -/
def fmtByteArray (bs : List Nat) : String :=
  "[" ++ " ".intercalate (bs.map toString) ++ "]"

/-- The struct `ClientInfo` of `client_info.go`, lines 12-21. `TotalDifficulty` is a
`*big.Int` (`none` is the nil pointer) and `HeadHash` the bytes of a `common.Hash`. -/
structure ClientInfo where
  ClientType : String
  SoftwareVersion : Nat
  Capabilities : List Cap
  NetworkID : Nat
  ForkID : ForkID
  Blockheight : String
  TotalDifficulty : Option Int
  HeadHash : List Nat
deriving DecidableEq, Repr

/-- The zero value `&common.ClientInfo{}` of `db.go`, line 92. -/
def ClientInfo.zero : ClientInfo :=
  { ClientType := "", SoftwareVersion := 0, Capabilities := [], NetworkID := 0,
    ForkID := { Hash := [0, 0, 0, 0], Next := 0 }, Blockheight := "",
    TotalDifficulty := none, HeadHash := List.replicate 32 0 }

/-- The method `(*big.Int).String`: `<nil>` for the nil pointer, the decimal numeral
otherwise. -/
def bigIntString : Option Int → String
  | none => "<nil>"
  | some i => toString i

/-- The method `common.Hash.String`: `0x` followed by the hexadecimal bytes. -/
def hashString (h : List Nat) : String :=
  "0x" ++ hexBytes h

/-- A reading of `time.Time`, as a count of nanoseconds. -/
structure Time where
  nanos : Nat
deriving DecidableEq, Repr

/-- The method `time.Time.String`. Go prints a calendar layout; the numeral of the
reading stands for it here, and like Go's it tells different readings apart. -/
def Time.String (t : Time) : String :=
  toString t.nanos

/-- The successive readings `time.Now()` returns during one call: the k-th read of the
clock yields `clock k`. -/
abbrev Clock := Nat → Time

/-- An IP address `net.IP`, carried in its textual form (what `IP().String()` prints). -/
abbrev IP := String

/-- The peer record `*enode.Node`, as far as `UpdateNodes` inspects it: `ID()`, `IP()`,
`Pubkey()` (the curve point, `none` for a nil key) and the results of `Load` on the
entries `udp`, `tcp` and `eth2` (`some v` when `Load` returns a nil error). -/
structure Node where
  id : List Nat
  ip : IP
  pubkey : Option (Nat × Nat)
  loadUDP : Option Nat
  loadTCP : Option Nat
  loadETH2 : Option (List Nat)
deriving DecidableEq, Repr

/-- The method `enode.ID.String`, `fmt.Sprintf("%x", n[:])`. -/
def Node.idString (n : Node) : String :=
  hexBytes n.id

/-- The value of a non-nil `*ClientInfo`: the address of a record. -/
abbrev Ptr := Nat

/-- The `ClientInfo` records the observations of a batch point to, by address. -/
abbrev Heap := Ptr → ClientInfo

/-- The heap after an assignment through a pointer: the record at `ptr` is replaced. -/
def Heap.store (heap : Heap) (ptr : Ptr) (info : ClientInfo) : Heap :=
  fun q => if q = ptr then info else heap q

/-- Modelled from the spec: the struct `common.NodeJSON`, whose declaration is not among
the sources; the fields are those `UpdateNodes` reads, the spec's crawl observation
(a peer address record, an optional `ClientInfo`, a "too many peers" flag, first and
last response timestamps, sequence number and reachability score). `Info` is the pointer
`*ClientInfo`, `none` when nil. -/
structure NodeJSON where
  N : Node
  Info : Option Ptr
  TooManyPeers : Bool
  FirstResponse : Time
  LastResponse : Time
  Seq : Nat
  Score : Int
deriving DecidableEq, Repr

/-- The type `beacon.Eth2Data` of zrnt, as far as it is printed: the four bytes of the
fork digest and the next fork epoch. -/
structure Eth2Data where
  ForkDigest : List Nat
  NextForkEpoch : Nat
deriving DecidableEq, Repr

/-- The decoder `(*beacon.Eth2Data).Deserialize` run on the bytes of the `eth2` entry:
`some dat` when it returns a nil error. It belongs to zrnt and is taken as given. -/
abbrev Deserializer := List Nat → Option Eth2Data

/-- The record `geoip2.City`, as far as it is read: `Country.Names["en"]`,
`City.Names["en"]` and the `%v` renderings of `Location.Latitude` and
`Location.Longitude`. -/
structure City where
  CountryEn : String
  CityEn : String
  Latitude : String
  Longitude : String
deriving DecidableEq, Repr

/-- The lookup `(*geoip2.Reader).City`. -/
abbrev GeoReader := IP → Except Err City

/-! ## The store -/

/-- A value bound to a placeholder by `stmt.Exec`. -/
inductive Value where
  | text (s : String)
  | uint (n : Nat)
  | int (i : Int)
deriving DecidableEq, Repr

/-- An `INSERT INTO table(columns) VALUES (values)` statement. -/
structure Stmt where
  table : String
  columns : List String
  values : List String
deriving DecidableEq, Repr

/-- A stored row: the columns of an insert, each with the value bound to it. -/
abbrev Row := List (String × Value)

/-- The store as `UpdateNodes` sees it: the rows committed to table `nodes`, and the
pending rows of every transaction that was begun and neither committed nor rolled
back. -/
structure DB where
  committed : List Row
  inFlight : List (List Row)
deriving DecidableEq, Repr

/-- The answers of `database/sql` and its driver, which are not part of the
repository: the error of `db.Begin()`, of `tx.Prepare(stmt)`, of `stmt.Exec(args...)`
(which may depend on the committed rows and on the rows pending in the transaction)
and of `tx.Commit()`. -/
structure Driver where
  beginTx : Option Err
  prepare : Stmt → Option Err
  exec : List Row → List Row → Stmt → List Value → Option Err
  commitTx : List Row → List Row → Option Err

/-- A statement is well formed when it has a placeholder for every column. -/
def Stmt.wellFormed (s : Stmt) : Prop :=
  s.columns.length = s.values.length

instance (s : Stmt) : Decidable s.wellFormed := by
  unfold Stmt.wellFormed; infer_instance

/-- A driver that checks statements as SQL requires: an insert whose number of values
differs from its number of columns is refused, when it is prepared or when it is
executed. -/
def Driver.checksStatements (d : Driver) : Prop :=
  ∀ s : Stmt, ¬ s.wellFormed →
    d.prepare s ≠ none ∨ ∀ committed pending args, d.exec committed pending s args ≠ none

/-- A driver that accepts well-formed statements: nothing fails as long as the
statement has a placeholder for every column and `Exec` binds a value to every
placeholder. -/
def Driver.acceptsWellFormed (d : Driver) : Prop :=
  d.beginTx = none ∧ (∀ committed pending, d.commitTx committed pending = none) ∧
  ∀ s : Stmt, s.wellFormed →
    d.prepare s = none ∧
    ∀ committed pending args, args.length = s.values.length →
      d.exec committed pending s args = none

namespace crawlerdb

/-- The statement prepared by `UpdateNodes`, `db.go` lines 61-85: the 21 listed columns
and the placeholders of its `VALUES` list, as written. -/
def insertNodes : Stmt :=
  { table := "nodes",
    columns := ["ID", "Now", "ClientType", "PK", "SoftwareVersion", "Capabilities",
      "NetworkID", "ForkID", "ForkIDName", "Blockheight", "TotalDifficulty", "HeadHash",
      "IP", "Country", "City", "Coordinates", "FirstSeen", "LastSeen", "Seq", "Score",
      "ConnType"],
    values := ["?", "?", "?", "?", "?", "?", "?", "?", "?", "?",
      "?", "?", "?", "?", "?", "?", "?", "?", "?", "?"] }

/-- The columns of `CREATE TABLE nodes` in `CreateDB`, `db.go` lines 176-199, each with
its declared type. -/
def createColumns : List (String × String) :=
  [("ID", "TEXT NOT NULL"), ("Now", "TEXT NOT NULL"), ("ClientType", "TEXT"),
   ("PK", "TEXT"), ("SoftwareVersion", "TEXT"), ("Capabilities", "TEXT"),
   ("NetworkID", "NUMBER"), ("ForkID", "TEXT"), ("ForkIDName", "TEXT"),
   ("Blockheight", "TEXT"), ("TotalDifficulty", "TEXT"), ("HeadHash", "TEXT"),
   ("IP", "TEXT"), ("Country", "TEXT"), ("City", "TEXT"), ("Coordinates", "TEXT"),
   ("FirstSeen", "TEXT"), ("LastSeen", "TEXT"), ("Seq", "NUMBER"), ("Score", "NUMBER"),
   ("ConnType", "TEXT")]

/-- The clause `PRIMARY KEY (ID, Now)` of `CreateDB`, `db.go` line 198. -/
def primaryKey : List String := ["ID", "Now"]

/-- The arguments of `stmt.Exec`, `db.go` lines 143-165, one field per argument and in
the order of the call; each field bears the name of the column at the same position of
the statement. -/
structure ExecArgs where
  ID : String
  Now : String
  ClientType : String
  PK : String
  SoftwareVersion : Nat
  Capabilities : String
  NetworkID : Nat
  ForkID : String
  ForkIDName : String
  Blockheight : String
  TotalDifficulty : String
  HeadHash : String
  IP : String
  Country : String
  City : String
  Coordinates : String
  FirstSeen : String
  LastSeen : String
  Seq : Nat
  Score : Int
  ConnType : String
deriving DecidableEq, Repr

/-- The argument list of the call `stmt.Exec(...)`, in order. -/
def ExecArgs.toList (a : ExecArgs) : List Value :=
  [.text a.ID, .text a.Now, .text a.ClientType, .text a.PK, .uint a.SoftwareVersion,
   .text a.Capabilities, .uint a.NetworkID, .text a.ForkID, .text a.ForkIDName,
   .text a.Blockheight, .text a.TotalDifficulty, .text a.HeadHash, .text a.IP,
   .text a.Country, .text a.City, .text a.Coordinates, .text a.FirstSeen,
   .text a.LastSeen, .uint a.Seq, .int a.Score, .text a.ConnType]

/-- The format `fmt.Sprintf("Hash: %v, Next %v", a, b)` of lines 110 and 118, on the
renderings of its two arguments. -/
def sprintfHashNext (a b : String) : String :=
  "Hash: " ++ a ++ ", Next " ++ b

/-- The method `beacon.ForkDigest.String` of zrnt: `0x` and the hexadecimal bytes. -/
def forkDigestString (d : List Nat) : String :=
  "0x" ++ hexBytes d

/-- Lines 92-95: the record `info` points to, a fresh zero value when `n.Info` is nil
and the record at `n.Info` otherwise. -/
def infoAt (heap : Heap) (n : NodeJSON) : ClientInfo :=
  match n.Info with
  | some ptr => heap ptr
  | none => ClientInfo.zero

/-- Lines 97-99: the record after `info.ClientType = "tmp"`, which is done when the client
type is empty and `TooManyPeers` is set. -/
def infoOf (heap : Heap) (n : NodeJSON) : ClientInfo :=
  let info := infoAt heap n
  if info.ClientType = "" ∧ n.TooManyPeers = true then
    { info with ClientType := "tmp" }
  else info

/-- The heap once the loop body has written to `info` (lines 98 and 115): when `info` is
the pointer `n.Info`, the record at that address is the one the body leaves; a fresh
record is dropped with the iteration. -/
def writeBack (heap : Heap) (n : NodeJSON) (info : ClientInfo) : Heap :=
  match n.Info with
  | some ptr => heap.store ptr info
  | none => heap

/-- Lines 100-108: `connType`, set to `UDP` when the `udp` entry loads and then to `TCP`
when the `tcp` entry loads. -/
def connTypeOf (n : Node) : String :=
  let connType := ""
  let connType := if n.loadUDP.isSome then "UDP" else connType
  let connType := if n.loadTCP.isSome then "TCP" else connType
  connType

/-- Lines 121-124: `caps`, built by `caps = fmt.Sprintf("%v, %v", caps, c.String())`
over the capabilities, starting from the empty string. -/
def capsOf (cs : List Cap) : String :=
  cs.foldl (fun caps c => caps ++ ", " ++ c.String) ""

/-- Lines 125-128: `pk`, empty for a nil public key. -/
def pkOf (n : Node) : String :=
  match n.pubkey with
  | some (x, y) => "X: " ++ toString x ++ ", Y: " ++ toString y
  | none => ""

/-- Lines 130-141: `country`, `city` and `loc`; empty without a reader, and the error of
`geoipDB.City` when the lookup fails. -/
def geoOf (geoipDB : Option GeoReader) (n : Node) : Except Err (String × String × String) :=
  match geoipDB with
  | none => .ok ("", "", "")
  | some reader =>
    match reader n.ip with
    | .error err => .error err
    | .ok ipRecord =>
      .ok (ipRecord.CountryEn, ipRecord.CityEn, ipRecord.Latitude ++ "," ++ ipRecord.Longitude)

/-- The body of the loop of `UpdateNodes` up to the call of `stmt.Exec`, lines 92-165:
the heap after its writes through `info`, and the error it returns with or the
arguments it passes to `stmt.Exec`. -/
def loopBody (p : StaticFilters) (deserialize : Deserializer) (geoipDB : Option GeoReader)
    (now : Time) (heap : Heap) (n : NodeJSON) : Heap × Except Err ExecArgs :=
  let info := infoOf heap n
  let connType := connTypeOf n.N
  let fid := sprintfHashNext (fmtByteArray info.ForkID.Hash) (toString info.ForkID.Next)
  let fidName := forkIDName p info.ForkID
  let (info, fid) :=
    match n.N.loadETH2 with
    | some eth2 =>
      let info := { info with ClientType := "eth2" }
      match deserialize eth2 with
      | some dat =>
        (info, sprintfHashNext (forkDigestString dat.ForkDigest) (toString dat.NextForkEpoch))
      | none => (info, fid)
    | none => (info, fid)
  let heap := writeBack heap n info
  let caps := capsOf info.Capabilities
  let pk := pkOf n.N
  match geoOf geoipDB n.N with
  | .error err => (heap, .error err)
  | .ok (country, city, loc) =>
    let args : ExecArgs :=
      { ID := n.N.idString, Now := now.String, ClientType := info.ClientType, PK := pk,
        SoftwareVersion := info.SoftwareVersion, Capabilities := caps,
        NetworkID := info.NetworkID, ForkID := fid, ForkIDName := fidName,
        Blockheight := info.Blockheight,
        TotalDifficulty := bigIntString info.TotalDifficulty,
        HeadHash := hashString info.HeadHash, IP := n.N.ip, Country := country,
        City := city, Coordinates := loc, FirstSeen := n.FirstResponse.String,
        LastSeen := n.LastResponse.String, Seq := n.Seq, Score := n.Score,
        ConnType := connType }
    (heap, .ok args)

/-- The row an accepted `stmt.Exec` adds to the transaction: the statement's columns,
each with the argument at its position. -/
def rowOf (s : Stmt) (args : List Value) : Row :=
  s.columns.zip args

/-- The loop of `UpdateNodes`, lines 91-169, over the observations still to be written;
`pending` holds the rows executed so far inside the transaction and `heap` the records
as the iterations so far left them. The result is the error the loop returns with, if
any, the rows pending at that point and the heap at that point. -/
def execLoop (drv : Driver) (p : StaticFilters) (deserialize : Deserializer)
    (geoipDB : Option GeoReader) (now : Time) (committed : List Row) :
    List NodeJSON → List Row → Heap → Option Err × List Row × Heap
  | [], pending, heap => (none, pending, heap)
  | n :: rest, pending, heap =>
    match loopBody p deserialize geoipDB now heap n with
    | (heap, .error err) => (some err, pending, heap)
    | (heap, .ok args) =>
      match drv.exec committed pending insertNodes args.toList with
      | some err => (some err, pending, heap)
      | none =>
        execLoop drv p deserialize geoipDB now committed rest
          (pending ++ [rowOf insertNodes args.toList]) heap

/-- The function `UpdateNodes` of `db.go`, lines 53-172: the error it returns (`none` is
nil), the store afterwards and the records of the caller afterwards. The clock is read
once, before the transaction begins; every return before `tx.Commit()` leaves the
transaction open. -/
def UpdateNodes (drv : Driver) (p : StaticFilters) (deserialize : Deserializer)
    (clock : Clock) (db : DB) (heap : Heap) (geoipDB : Option GeoReader)
    (nodes : List NodeJSON) : Option Err × DB × Heap :=
  let now := clock 0
  match drv.beginTx with
  | some err => (some err, db, heap)
  | none =>
    match drv.prepare insertNodes with
    | some err => (some err, { db with inFlight := [] :: db.inFlight }, heap)
    | none =>
      match execLoop drv p deserialize geoipDB now db.committed nodes [] heap with
      | (some err, pending, heap) =>
        (some err, { db with inFlight := pending :: db.inFlight }, heap)
      | (none, pending, heap) =>
        match drv.commitTx db.committed pending with
        | some err => (some err, { db with inFlight := pending :: db.inFlight }, heap)
        | none => (none, { db with committed := db.committed ++ pending }, heap)

end crawlerdb

/-! ## The version string parser

The file `pkg/vparser/vparser.go` is not among the sources; its test file is. The parser
below follows the grammar of the specification, section 4.1, and is checked against the
cases of `TestParseVersionString`. It works on the characters of the input. -/

namespace vparser

/-- Modelled from the spec: the struct `Version` of package vparser, which is declared
outside the sources; the fields are those of the test cases and of the specification's
data model (numbers `Major`, `Minor`, `Patch`, optional `Tag`, `Build`, `Date`). -/
structure Version where
  Major : Nat
  Minor : Nat
  Patch : Nat
  Tag : String
  Build : String
  Date : String
deriving DecidableEq, Repr

/-- Modelled from the spec: the struct `OSInfo` of package vparser, declared outside the
sources; both fields are empty when the segment is not recognized. -/
structure OSInfo where
  Os : String
  Architecture : String
deriving DecidableEq, Repr

/-- Modelled from the spec: the struct `LanguageInfo` of package vparser, declared
outside the sources: the runtime that built the client and its version. -/
structure LanguageInfo where
  Name : String
  Version : String
deriving DecidableEq, Repr

/-- Modelled from the spec: the struct `ParsedInfo` of package vparser, declared outside
the sources: the specification's identity record. -/
structure ParsedInfo where
  Name : String
  Label : String
  Version : Version
  Os : OSInfo
  Language : LanguageInfo
deriving DecidableEq, Repr

/-- The pieces of a character sequence between the occurrences of a separator, as
`strings.Split` yields them: one piece more than there are separators. -/
def splitOn (sep : Char) : List Char → List (List Char)
  | [] => [[]]
  | c :: cs =>
    if c = sep then [] :: splitOn sep cs
    else
      match splitOn sep cs with
      | [] => [[c]]
      | seg :: segs => (c :: seg) :: segs

/-- Segments joined by `/`. -/
def joinSegs : List (List Char) → List Char
  | [] => []
  | [s] => s
  | s :: t => s ++ '/' :: joinSegs t

/-- Case folding to lowercase, as a string. -/
def lower (cs : List Char) : String :=
  String.mk (cs.map Char.toLower)

/-- Modelled from the spec: the "embedded URI-like scheme marker" of rule 1, the
characters `://` anywhere in the input, by which an endpoint address is told from a
short identifier. -/
def hasSchemeMarker : List Char → Bool
  | [] => false
  | c :: cs => List.isPrefixOf [':', '/', '/'] (c :: cs) || hasSchemeMarker cs

/-- Modelled from the spec: a segment "begins with the version marker" (rules 2 and 3)
when its first character is `v`. -/
def isVersionSeg : List Char → Bool
  | c :: _ => c == 'v'
  | [] => false

/-- Modelled from the spec: "a second independent name+version pair" (rule 2) shows as
a segment that is no version segment, directly followed by a version segment. -/
def secondPair : List (List Char) → Bool
  | [] => false
  | a :: rest =>
    (match rest with
     | b :: _ => !isVersionSeg a && isVersionSeg b
     | [] => false) || secondPair rest

/-- The segments that follow the first version segment. -/
def afterFirstVersion : List (List Char) → List (List Char)
  | [] => []
  | s :: rest => if isVersionSeg s then rest else afterFirstVersion rest

/-- The number a sequence of decimal digits denotes, leading zeros permitted. -/
def digitsValue (cs : List Char) : Nat :=
  cs.foldl (fun acc c => 10 * acc + (c.toNat - 48)) 0

/-- Modelled from the spec: a component of `Major.Minor.Patch` is "a non-negative
integer (leading zeros permitted, parsed numerically, not as text)": a non-empty
sequence of digits. -/
def parseNat (cs : List Char) : Option Nat :=
  if cs ≠ [] ∧ cs.all Char.isDigit = true then some (digitsValue cs) else none

/-- Modelled from the spec: `Major.Minor.Patch`, three numbers separated by dots. -/
def parseTriple (cs : List Char) : Option (Nat × Nat × Nat) :=
  match splitOn '.' cs with
  | [a, b, c] =>
    match parseNat a, parseNat b, parseNat c with
    | some major, some minor, some patch => some (major, minor, patch)
    | _, _, _ => none
  | _ => none

/-- Modelled from the spec: a qualifier token "matching an 8-digit all-numeric
pattern" is a date. -/
def isDate (t : List Char) : Bool :=
  t.length == 8 && t.all Char.isDigit

/-- Modelled from the spec: any other qualifier token is "a short lowercase/hex
string": letters and digits, at least one. -/
def isQualifier (t : List Char) : Bool :=
  !t.isEmpty && t.all Char.isAlphanum

/-- The qualifiers of a version: tag, build and date, each empty when absent. -/
structure Qualifiers where
  Tag : String
  Build : String
  Date : String
deriving DecidableEq, Repr

/-- Modelled from the spec: the qualifier tokens are "classified by shape, in the order
they appear": a date token gives `Date`; of the other tokens the first gives `Tag`,
case-folded to lowercase, and any later one gives `Build`. A token of neither shape
cannot be classified, and the parse fails. -/
def classify : List (List Char) → Qualifiers → Option Qualifiers
  | [], q => some q
  | t :: ts, q =>
    if isDate t then classify ts { q with Date := String.mk t }
    else if isQualifier t then
      if q.Tag = "" then classify ts { q with Tag := lower t }
      else classify ts { q with Build := String.mk t }
    else none

/-- Modelled from the spec: the version segment of rule 3, the version marker followed
by `Major.Minor.Patch` and by zero or more hyphen-delimited qualifier tokens. -/
def parseVersion (seg : List Char) : Option Version :=
  match seg with
  | 'v' :: body =>
    match splitOn '-' body with
    | core :: quals =>
      match parseTriple core, classify quals { Tag := "", Build := "", Date := "" } with
      | some (major, minor, patch), some q =>
        some { Major := major, Minor := minor, Patch := patch,
               Tag := q.Tag, Build := q.Build, Date := q.Date }
      | _, _ => none
    | [] => none
  | _ => none

/-- Modelled from the spec: the "recognized set of operating-system names" of rule 4.
The specification does not list the set; these are the names its examples and the test
cases show recognized. -/
def knownOS : List String := ["linux", "windows", "darwin"]

/-- Modelled from the spec: the segment of rule 4, "matched only when the token has the
shape `<os>-<arch>` and `<os>` is drawn from a recognized set of operating-system names;
otherwise `Os` stays empty (no error)". The name ends at the first hyphen. -/
def parseOS (seg : List Char) : OSInfo :=
  let os := seg.takeWhile (fun c => c != '-')
  match seg.dropWhile (fun c => c != '-') with
  | _ :: arch =>
    if String.mk os ∈ knownOS ∧ arch ≠ [] then
      { Os := String.mk os, Architecture := String.mk arch }
    else { Os := "", Architecture := "" }
  | [] => { Os := "", Architecture := "" }

/-- Modelled from the spec: the "known runtime name" of rule 5. The specification does
not list the names; these are the ones its examples and the test cases show. -/
def knownLanguages : List String := ["go", "rustc", "java"]

/-- Modelled from the spec: the "trailing dotted version number" of rule 5: digits and
dots, a digit first. -/
def isDottedNumber : List Char → Bool
  | [] => false
  | c :: cs => c.isDigit && cs.all (fun d => d.isDigit || d == '.')

/-- Modelled from the spec: the segment of rule 5, "a token combining a known runtime
name with a trailing dotted version number with no separator (e.g. `go1.16.3`), or a
hyphen-joined `name-version` pair (e.g. `corretto-java-11`, where the runtime name is
the matched keyword and the trailing token is the version, independent of leading vendor
qualifiers)". Without a hyphen the name ends where the first digit stands. A segment of
neither shape cannot be classified. -/
def parseLanguage (seg : List Char) : Option LanguageInfo :=
  if '-' ∈ seg then
    match (splitOn '-' seg).reverse with
    | version :: name :: _ =>
      if lower name ∈ knownLanguages ∧ version ≠ [] then
        some { Name := lower name, Version := String.mk version }
      else none
    | _ => none
  else
    let name := seg.takeWhile (fun c => !c.isDigit)
    let version := seg.dropWhile (fun c => !c.isDigit)
    if lower name ∈ knownLanguages ∧ isDottedNumber version = true then
      some { Name := lower name, Version := String.mk version }
    else none

/-- The record of a name alone. -/
def nameOnly (name : String) : ParsedInfo :=
  { Name := name, Label := "",
    Version := { Major := 0, Minor := 0, Patch := 0, Tag := "", Build := "", Date := "" },
    Os := { Os := "", Architecture := "" }, Language := { Name := "", Version := "" } }

/-- Modelled from the spec: the segments in their positions (rules 1 to 5): the name,
which is required; a label when the next segment does not begin with the version
marker; the version; the operating system, best effort; the runtime. Segments that are
absent leave their fields empty, a segment that cannot be classified makes the parse
fail, and segments after the fifth are not looked at. -/
def parseSegments : List (List Char) → Option ParsedInfo
  | [] => none
  | name :: rest =>
    if name = [] then none
    else
      let labelled : List Char × List (List Char) :=
        match rest with
        | s :: rest' => if isVersionSeg s then ([], rest) else (s, rest')
        | [] => ([], [])
      let base : ParsedInfo := { nameOnly (lower name) with Label := lower labelled.1 }
      match labelled.2 with
      | [] => some base
      | v :: rest2 =>
        match parseVersion v with
        | none => none
        | some version =>
          match rest2 with
          | [] => some { base with Version := version }
          | os :: rest3 =>
            match rest3 with
            | [] => some { base with Version := version, Os := parseOS os }
            | lang :: _ =>
              match parseLanguage lang with
              | none => none
              | some language =>
                some { base with Version := version, Os := parseOS os, Language := language }

/-- Modelled from the spec: the function `ParseVersionString` of package vparser, whose
source file is not among the sources; `none` is the nil result. An input with a scheme
marker is rejected, and so is one in which a second name and version pair follows the
first version segment; every other input is parsed segment by segment. -/
def ParseVersionString (input : String) : Option ParsedInfo :=
  let cs := input.data
  if hasSchemeMarker cs then none
  else
    let segs := splitOn '/' cs
    if secondPair (afterFirstVersion segs.tail) then none
    else parseSegments segs

/-- The version segment `vMAJOR.MINOR.PATCH[-qualifiers]` written out: the marker, the
three components with dots between them, and each qualifier behind a hyphen. -/
def versionSegment (major minor patch : List Char) (quals : List (List Char)) : List Char :=
  'v' :: (major ++ '.' :: (minor ++ '.' :: patch)) ++ (quals.map (fun q => '-' :: q)).flatten

/-- Tokens joined by `-`. -/
def joinHyphens : List (List Char) → List Char
  | [] => []
  | [s] => s
  | s :: t => s ++ '-' :: joinHyphens t

/-- The runtime segment `lang-version` for a runtime name `lang` and a version
`version`, in the two shapes of rule 5: name and version side by side, the version a
dotted number, as in `go1.16.3`; or hyphen-joined behind any vendor qualifiers, as in
`corretto-java-11`. -/
def IsRuntimeSegment (lang version runtime : List Char) : Prop :=
  (runtime = lang ++ version ∧ isDottedNumber version = true) ∨
  ∃ vendor : List (List Char), runtime = joinHyphens (vendor ++ [lang, version]) ∧
    (∀ t ∈ vendor, '-' ∉ t ∧ '/' ∉ t) ∧ version ≠ [] ∧ '-' ∉ version ∧ '/' ∉ version

/-- The version string `Name/vMAJOR.MINOR.PATCH[-qualifiers]/os-arch/lang-version`
written out from its parts, `runtime` being the runtime segment. -/
def versionString (name major minor patch : List Char) (quals : List (List Char))
    (os arch runtime : List Char) : String :=
  String.mk (joinSegs [name, versionSegment major minor patch quals, os ++ '-' :: arch,
    runtime])

/-- The number a sequence of digit characters denotes, most significant digit first. -/
def decimalValue (cs : List Char) : Nat :=
  Nat.ofDigits 10 (cs.reverse.map (fun c => c.toNat - 48))

end vparser

/-! ## The capability display, as the specification words it -/

/-- The display of a capability list in the specification's words: the separator `", "`
followed by the rendering of the capability, for each capability in list order. -/
def capsDisplay : List Cap → String
  | [] => ""
  | c :: cs => ", " ++ c.String ++ capsDisplay cs

/-- The value a row holds in column `c`. -/
def Row.column (r : Row) (c : String) : Option Value :=
  r.lookup c

/-! ## Concrete inputs -/

namespace Sample

/-- A filter in the manner of `forkid.NewStaticFilter`: it accepts the listed checksums
and answers every other one with an error. -/
def staticFilter (accepted : List (List Nat)) : Filter :=
  fun fid => if fid.Hash ∈ accepted then none else some "local incompatible or needs update"

/-- Five filters of which `mainnet` and `classic` share the checksums of their common
genesis and first forks, as the two chains do. -/
def filters : StaticFilters :=
  { mainnet := staticFilter [[252, 100, 236, 4], [151, 194, 195, 76], [32, 196, 35, 238]],
    goerli := staticFilter [[163, 245, 171, 8]],
    sepolia := staticFilter [[254, 51, 56, 228]],
    classic := staticFilter [[252, 100, 236, 4], [151, 194, 195, 76], [219, 6, 128, 63]],
    mordor := staticFilter [[23, 90, 120, 165]] }

/-- A fork id that both the `mainnet` and the `classic` filter accept. -/
def sharedForkID : ForkID := { Hash := [252, 100, 236, 4], Next := 1150000 }

/-- A fork id that only the `classic` filter accepts. -/
def classicForkID : ForkID := { Hash := [219, 6, 128, 63], Next := 2500000 }

/-- A fork id no filter accepts. -/
def unknownForkID : ForkID := { Hash := [1, 2, 3, 4], Next := 0 }

/-- A decoder that reads a 16-byte blob (digest, version, little-endian epoch byte) and
refuses every other length. -/
def deserialize : Deserializer
  | [a, b, c, d, _, _, _, _, e, _, _, _, _, _, _, _] =>
    some { ForkDigest := [a, b, c, d], NextForkEpoch := e }
  | _ => none

/-- A clock whose readings strictly increase: the k-th read yields `1000 + k`. -/
def clock : Clock := fun k => { nanos := 1000 + k }

/-- A reader that knows one address only, and tells an unspecified address from one it
does not find. -/
def reader : GeoReader := fun ip =>
  if ip = "10.0.0.1" then
    .ok { CountryEn := "Iceland", CityEn := "Reykjavik", Latitude := "64.14", Longitude := "-21.9" }
  else if ip = "0.0.0.0" then .error "unspecified address"
  else .error "address not found"

/-- A driver that refuses an insert without a placeholder for every column, when the
statement is executed, and accepts everything else. -/
def sqlDriver : Driver :=
  { beginTx := none,
    prepare := fun _ => none,
    exec := fun _ _ s args =>
      if s.wellFormed ∧ args.length = s.values.length then none
      else some "values do not match columns",
    commitTx := fun _ _ => none }

/-- A driver that accepts every statement and every execution. -/
def laxDriver : Driver :=
  { beginTx := none,
    prepare := fun _ => none,
    exec := fun _ _ _ _ => none,
    commitTx := fun _ _ => none }

/-- A live handshake result. -/
def gethInfo : ClientInfo :=
  { ClientType := "Geth/v1.10.3-stable-991384a7/linux-amd64/go1.16.3",
    SoftwareVersion := 66,
    Capabilities := [{ Name := "eth", Version := 66 }, { Name := "snap", Version := 1 }],
    NetworkID := 1, ForkID := sharedForkID, Blockheight := "12345",
    TotalDifficulty := some 17179869184, HeadHash := List.replicate 32 171 }

/-- A second handshake result, of a beacon-chain client. -/
def beaconInfo : ClientInfo :=
  { gethInfo with ClientType := "Lighthouse/v4.5.0-441fc16/x86_64-linux" }

/-- The records of the caller: `gethInfo` at address 0, `beaconInfo` at address 1. -/
def heap : Heap := fun ptr =>
  if ptr = 0 then gethInfo else if ptr = 1 then beaconInfo else ClientInfo.zero

/-- A peer record with both a UDP and a TCP endpoint. -/
def nodeBoth : Node :=
  { id := List.replicate 32 17, ip := "10.0.0.1", pubkey := some (5, 7),
    loadUDP := some 30303, loadTCP := some 30303, loadETH2 := none }

/-- A peer record with a UDP endpoint only, at an address the reader does not know. -/
def nodeUDP : Node :=
  { id := List.replicate 32 34, ip := "10.0.0.2", pubkey := none,
    loadUDP := some 30301, loadTCP := none, loadETH2 := none }

/-- A peer record carrying an `eth2` entry that the decoder refuses (three bytes). -/
def nodeEth2Bad : Node :=
  { id := List.replicate 32 51, ip := "10.0.0.1", pubkey := none,
    loadUDP := some 9000, loadTCP := none, loadETH2 := some [1, 2, 3] }

/-- A peer record without endpoint entries, at the unspecified address. -/
def nodeNoAddr : Node :=
  { id := List.replicate 32 68, ip := "0.0.0.0", pubkey := none,
    loadUDP := none, loadTCP := none, loadETH2 := none }

/-- An observation with a live handshake, whose record is at address 0. -/
def obsLive : NodeJSON :=
  { N := nodeBoth, Info := some 0, TooManyPeers := true,
    FirstResponse := { nanos := 10 }, LastResponse := { nanos := 20 }, Seq := 3, Score := 5 }

/-- An observation without handshake of a peer that answered "too many peers". -/
def obsTooMany : NodeJSON :=
  { N := nodeUDP, Info := none, TooManyPeers := true,
    FirstResponse := { nanos := 11 }, LastResponse := { nanos := 21 }, Seq := 1, Score := -2 }

/-- An observation of a beacon-chain peer whose `eth2` entry does not decode; its record
is at address 1. -/
def obsEth2Bad : NodeJSON :=
  { N := nodeEth2Bad, Info := some 1, TooManyPeers := false,
    FirstResponse := { nanos := 12 }, LastResponse := { nanos := 22 }, Seq := 4, Score := 0 }

/-- An observation of a peer without `eth2` entry that holds the same pointer as
`obsEth2Bad`: its record is at address 1 too. -/
def obsSameInfo : NodeJSON :=
  { N := nodeBoth, Info := some 1, TooManyPeers := false,
    FirstResponse := { nanos := 13 }, LastResponse := { nanos := 23 }, Seq := 5, Score := 1 }

/-- An observation without handshake of a peer at the unspecified address. -/
def obsNoAddr : NodeJSON :=
  { N := nodeNoAddr, Info := none, TooManyPeers := false,
    FirstResponse := { nanos := 14 }, LastResponse := { nanos := 24 }, Seq := 6, Score := 0 }

/-- An empty store. -/
def emptyDB : DB := { committed := [], inFlight := [] }

end Sample

/-! ## Lemmas on the registry loop -/

theorem rangeFilters_first (fid : ForkID) (reg : List forkIDFilterer) (i : Nat)
    (hi : i < reg.length) (hmatch : (reg.get ⟨i, hi⟩).filter fid = none)
    (hearlier : ∀ j (hj : j < reg.length), j < i → (reg.get ⟨j, hj⟩).filter fid ≠ none) :
    rangeFilters fid reg = (reg.get ⟨i, hi⟩).name := by
  induction reg generalizing i with
  | nil => exact absurd hi (Nat.not_lt_zero _)
  | cons t rest ih =>
    cases i with
    | zero =>
      have h0 : t.filter fid = none := hmatch
      simp [rangeFilters, h0]
    | succ k =>
      have h0 : t.filter fid ≠ none :=
        hearlier 0 (Nat.succ_pos _) (Nat.succ_pos _)
      have hk : k < rest.length := Nat.lt_of_succ_lt_succ hi
      have hrec := ih k hk hmatch
        (fun j hj hjk => hearlier (j + 1) (Nat.succ_lt_succ hj) (Nat.succ_lt_succ hjk))
      simpa [rangeFilters, h0] using hrec

theorem rangeFilters_none (fid : ForkID) (reg : List forkIDFilterer)
    (hall : ∀ t ∈ reg, t.filter fid ≠ none) : rangeFilters fid reg = "" := by
  induction reg with
  | nil => rfl
  | cons t rest ih =>
    have h0 : t.filter fid ≠ none := hall t (List.mem_cons_self _ _)
    have hrest := ih (fun u hu => hall u (List.mem_cons_of_mem _ hu))
    simpa [rangeFilters, h0] using hrest

/-! ## Lemmas on the loop of `UpdateNodes` -/

namespace crawlerdb

/-- The record the loop body leaves behind `info`: the client type is `eth2` when the
`eth2` entry loads, and the record after line 98 otherwise. -/
theorem loopBody_heap (p : StaticFilters) (deserialize : Deserializer)
    (geoipDB : Option GeoReader) (now : Time) (heap : Heap) (n : NodeJSON) :
    (loopBody p deserialize geoipDB now heap n).1 =
      writeBack heap n (match n.N.loadETH2 with
        | some _ => { infoOf heap n with ClientType := "eth2" }
        | none => infoOf heap n) := by
  unfold loopBody
  cases hg : geoOf geoipDB n.N with
  | error e =>
    cases he : n.N.loadETH2 with
    | none => simp only [hg, he]
    | some eth2 => cases hd : deserialize eth2 <;> simp only [hg, he, hd]
  | ok g =>
    obtain ⟨country, city, loc⟩ := g
    cases he : n.N.loadETH2 with
    | none => simp only [hg, he]
    | some eth2 => cases hd : deserialize eth2 <;> simp only [hg, he, hd]

/-- What the loop body passes to `stmt.Exec` when it gets that far. -/
theorem loopBody_ok (p : StaticFilters) (deserialize : Deserializer)
    (geoipDB : Option GeoReader) (now : Time) (heap : Heap) (n : NodeJSON) (args : ExecArgs)
    (h : (loopBody p deserialize geoipDB now heap n).2 = .ok args) :
    ∃ country city loc, geoOf geoipDB n.N = .ok (country, city, loc) ∧
      args.ID = n.N.idString ∧ args.Now = now.String ∧
      args.ConnType = connTypeOf n.N ∧
      args.ClientType = (match n.N.loadETH2 with
        | some _ => "eth2"
        | none => (infoOf heap n).ClientType) ∧
      args.ForkID = (match n.N.loadETH2 with
        | some eth2 =>
          (match deserialize eth2 with
           | some dat =>
             sprintfHashNext (forkDigestString dat.ForkDigest) (toString dat.NextForkEpoch)
           | none =>
             sprintfHashNext (fmtByteArray (infoOf heap n).ForkID.Hash)
               (toString (infoOf heap n).ForkID.Next))
        | none =>
          sprintfHashNext (fmtByteArray (infoOf heap n).ForkID.Hash)
            (toString (infoOf heap n).ForkID.Next)) ∧
      args.Capabilities = capsOf (infoOf heap n).Capabilities := by
  unfold loopBody at h
  cases hg : geoOf geoipDB n.N with
  | error e =>
    cases he : n.N.loadETH2 with
    | none => simp [hg, he] at h
    | some eth2 => cases hd : deserialize eth2 <;> simp [hg, he, hd] at h
  | ok g =>
    obtain ⟨country, city, loc⟩ := g
    refine ⟨country, city, loc, rfl, ?_⟩
    cases he : n.N.loadETH2 with
    | none =>
      simp only [hg, he] at h
      cases h
      simp
    | some eth2 =>
      cases hd : deserialize eth2 with
      | none =>
        simp only [hg, he, hd] at h
        cases h
        simp [hd]
      | some dat =>
        simp only [hg, he, hd] at h
        cases h
        simp [hd]

/-- The loop body returns an error exactly when the geolocation lookup does. -/
theorem loopBody_error_iff (p : StaticFilters) (deserialize : Deserializer)
    (geoipDB : Option GeoReader) (now : Time) (heap : Heap) (n : NodeJSON) (e : Err) :
    (loopBody p deserialize geoipDB now heap n).2 = .error e ↔
      geoOf geoipDB n.N = .error e := by
  unfold loopBody
  cases hg : geoOf geoipDB n.N with
  | error e' =>
    cases he : n.N.loadETH2 with
    | none => simp
    | some eth2 => cases hd : deserialize eth2 <;> simp
  | ok g =>
    obtain ⟨country, city, loc⟩ := g
    cases he : n.N.loadETH2 with
    | none => simp
    | some eth2 => cases hd : deserialize eth2 <;> simp

/-- The loop body reaches `stmt.Exec` whenever the geolocation step yields a result. -/
theorem loopBody_isOk (p : StaticFilters) (deserialize : Deserializer)
    (geoipDB : Option GeoReader) (now : Time) (heap : Heap) (n : NodeJSON)
    (g : String × String × String) (hg : geoOf geoipDB n.N = .ok g) :
    ∃ args, (loopBody p deserialize geoipDB now heap n).2 = .ok args := by
  cases h : (loopBody p deserialize geoipDB now heap n).2 with
  | error e =>
    have := (loopBody_error_iff p deserialize geoipDB now heap n e).1 h
    rw [hg] at this
    cases this
  | ok args => exact ⟨args, rfl⟩

theorem geoOf_error (reader : GeoReader) (n : Node) (e : Err)
    (h : reader n.ip = .error e) : geoOf (some reader) n = .error e := by
  simp [geoOf, h]

theorem geoOf_none (n : Node) : geoOf none n = .ok ("", "", "") := rfl

/-- The loop over a batch whose first observation is `n`. -/
theorem execLoop_cons (drv : Driver) (p : StaticFilters) (deserialize : Deserializer)
    (geoipDB : Option GeoReader) (now : Time) (committed : List Row)
    (n : NodeJSON) (rest : List NodeJSON) (pending : List Row) (heap : Heap) :
    execLoop drv p deserialize geoipDB now committed (n :: rest) pending heap =
      match (loopBody p deserialize geoipDB now heap n).2 with
      | .error err => (some err, pending, (loopBody p deserialize geoipDB now heap n).1)
      | .ok args =>
        match drv.exec committed pending insertNodes args.toList with
        | some err => (some err, pending, (loopBody p deserialize geoipDB now heap n).1)
        | none =>
          execLoop drv p deserialize geoipDB now committed rest
            (pending ++ [rowOf insertNodes args.toList])
            (loopBody p deserialize geoipDB now heap n).1 := by
  cases hb : loopBody p deserialize geoipDB now heap n with
  | mk heap' res =>
    cases res with
    | error e => simp [execLoop, hb]
    | ok args => simp [execLoop, hb]

theorem execLoop_cons_error (drv : Driver) (p : StaticFilters) (deserialize : Deserializer)
    (geoipDB : Option GeoReader) (now : Time) (committed : List Row)
    (n : NodeJSON) (rest : List NodeJSON) (pending : List Row) (heap : Heap) (e : Err)
    (hb : (loopBody p deserialize geoipDB now heap n).2 = .error e) :
    execLoop drv p deserialize geoipDB now committed (n :: rest) pending heap =
      (some e, pending, (loopBody p deserialize geoipDB now heap n).1) := by
  rw [execLoop_cons, hb]

theorem execLoop_cons_refused (drv : Driver) (p : StaticFilters) (deserialize : Deserializer)
    (geoipDB : Option GeoReader) (now : Time) (committed : List Row)
    (n : NodeJSON) (rest : List NodeJSON) (pending : List Row) (heap : Heap)
    (args : ExecArgs) (e : Err)
    (hb : (loopBody p deserialize geoipDB now heap n).2 = .ok args)
    (hx : drv.exec committed pending insertNodes args.toList = some e) :
    execLoop drv p deserialize geoipDB now committed (n :: rest) pending heap =
      (some e, pending, (loopBody p deserialize geoipDB now heap n).1) := by
  rw [execLoop_cons, hb]
  simp only [hx]

theorem execLoop_cons_ok (drv : Driver) (p : StaticFilters) (deserialize : Deserializer)
    (geoipDB : Option GeoReader) (now : Time) (committed : List Row)
    (n : NodeJSON) (rest : List NodeJSON) (pending : List Row) (heap : Heap)
    (args : ExecArgs)
    (hb : (loopBody p deserialize geoipDB now heap n).2 = .ok args)
    (hx : drv.exec committed pending insertNodes args.toList = none) :
    execLoop drv p deserialize geoipDB now committed (n :: rest) pending heap =
      execLoop drv p deserialize geoipDB now committed rest
        (pending ++ [rowOf insertNodes args.toList])
        (loopBody p deserialize geoipDB now heap n).1 := by
  rw [execLoop_cons, hb]
  simp only [hx]

/-- The row of an execution, column by column. -/
theorem rowOf_insertNodes (a : ExecArgs) :
    rowOf insertNodes a.toList =
      [("ID", .text a.ID), ("Now", .text a.Now), ("ClientType", .text a.ClientType),
       ("PK", .text a.PK), ("SoftwareVersion", .uint a.SoftwareVersion),
       ("Capabilities", .text a.Capabilities), ("NetworkID", .uint a.NetworkID),
       ("ForkID", .text a.ForkID), ("ForkIDName", .text a.ForkIDName),
       ("Blockheight", .text a.Blockheight), ("TotalDifficulty", .text a.TotalDifficulty),
       ("HeadHash", .text a.HeadHash), ("IP", .text a.IP), ("Country", .text a.Country),
       ("City", .text a.City), ("Coordinates", .text a.Coordinates),
       ("FirstSeen", .text a.FirstSeen), ("LastSeen", .text a.LastSeen),
       ("Seq", .uint a.Seq), ("Score", .int a.Score), ("ConnType", .text a.ConnType)] := rfl

theorem column_Now (a : ExecArgs) :
    Row.column (rowOf insertNodes a.toList) "Now" = some (.text a.Now) := by
  rw [rowOf_insertNodes]; simp [Row.column, List.lookup]

theorem column_ClientType (a : ExecArgs) :
    Row.column (rowOf insertNodes a.toList) "ClientType" = some (.text a.ClientType) := by
  rw [rowOf_insertNodes]; simp [Row.column, List.lookup]

theorem column_Capabilities (a : ExecArgs) :
    Row.column (rowOf insertNodes a.toList) "Capabilities" = some (.text a.Capabilities) := by
  rw [rowOf_insertNodes]; simp [Row.column, List.lookup]

theorem column_ForkID (a : ExecArgs) :
    Row.column (rowOf insertNodes a.toList) "ForkID" = some (.text a.ForkID) := by
  rw [rowOf_insertNodes]; simp [Row.column, List.lookup]

theorem column_ConnType (a : ExecArgs) :
    Row.column (rowOf insertNodes a.toList) "ConnType" = some (.text a.ConnType) := by
  rw [rowOf_insertNodes]; simp [Row.column, List.lookup]

/-- The loop only ever appends to the pending rows. -/
theorem execLoop_pending (drv : Driver) (p : StaticFilters) (deserialize : Deserializer)
    (geoipDB : Option GeoReader) (now : Time) (committed : List Row)
    (nodes : List NodeJSON) (pending : List Row) (heap : Heap) :
    ∃ added : List Row,
      (execLoop drv p deserialize geoipDB now committed nodes pending heap).2.1
        = pending ++ added ∧
      added.length ≤ nodes.length ∧
      ((execLoop drv p deserialize geoipDB now committed nodes pending heap).1 = none →
        added.length = nodes.length) ∧
      ∀ r ∈ added, Row.column r "Now" = some (.text now.String) := by
  induction nodes generalizing pending heap with
  | nil => exact ⟨[], by simp [execLoop]⟩
  | cons n rest ih =>
    cases hb : (loopBody p deserialize geoipDB now heap n).2 with
    | error e =>
      rw [execLoop_cons_error drv p deserialize geoipDB now committed n rest pending heap e hb]
      exact ⟨[], by simp⟩
    | ok args =>
      cases hx : drv.exec committed pending insertNodes args.toList with
      | some e =>
        rw [execLoop_cons_refused drv p deserialize geoipDB now committed n rest pending heap
          args e hb hx]
        exact ⟨[], by simp⟩
      | none =>
        rw [execLoop_cons_ok drv p deserialize geoipDB now committed n rest pending heap
          args hb hx]
        obtain ⟨added, h1, h2, h3, h4⟩ := ih (pending ++ [rowOf insertNodes args.toList])
          (loopBody p deserialize geoipDB now heap n).1
        refine ⟨rowOf insertNodes args.toList :: added, ?_, ?_, ?_, ?_⟩
        · rw [h1]
          simp
        · simp only [List.length_cons]; omega
        · intro hnone
          have := h3 hnone
          simp [this]
        · intro r hr
          rcases List.mem_cons.1 hr with rfl | hr
          · obtain ⟨_, _, _, _, _, hnow, _⟩ :=
              loopBody_ok p deserialize geoipDB now heap n args hb
            rw [column_Now, hnow]
          · exact h4 r hr

/-- The loop over a batch split in two: once it gets through the first part it goes on
with the second, from the rows and the heap the first part left. -/
theorem execLoop_append (drv : Driver) (p : StaticFilters) (deserialize : Deserializer)
    (geoipDB : Option GeoReader) (now : Time) (committed : List Row)
    (pre rest : List NodeJSON) (pending : List Row) (heap : Heap)
    (h : (execLoop drv p deserialize geoipDB now committed pre pending heap).1 = none) :
    execLoop drv p deserialize geoipDB now committed (pre ++ rest) pending heap =
      execLoop drv p deserialize geoipDB now committed rest
        (execLoop drv p deserialize geoipDB now committed pre pending heap).2.1
        (execLoop drv p deserialize geoipDB now committed pre pending heap).2.2 := by
  induction pre generalizing pending heap with
  | nil => simp [execLoop]
  | cons n pre ih =>
    cases hb : (loopBody p deserialize geoipDB now heap n).2 with
    | error e =>
      rw [execLoop_cons_error drv p deserialize geoipDB now committed n pre pending heap e
        hb] at h
      cases h
    | ok args =>
      cases hx : drv.exec committed pending insertNodes args.toList with
      | some e =>
        rw [execLoop_cons_refused drv p deserialize geoipDB now committed n pre pending heap
          args e hb hx] at h
        cases h
      | none =>
        rw [execLoop_cons_ok drv p deserialize geoipDB now committed n pre pending heap
          args hb hx] at h ⊢
        rw [List.cons_append, execLoop_cons_ok drv p deserialize geoipDB now committed n
          (pre ++ rest) pending heap args hb hx]
        exact ih _ _ h

/-- A failing geolocation lookup anywhere in the batch makes the loop return an error. -/
theorem execLoop_geo_error (drv : Driver) (p : StaticFilters) (deserialize : Deserializer)
    (reader : GeoReader) (now : Time) (committed : List Row)
    (pre post : List NodeJSON) (n : NodeJSON) (e : Err) (pending : List Row) (heap : Heap)
    (hgeo : reader n.N.ip = .error e) :
    ∃ e', (execLoop drv p deserialize (some reader) now committed (pre ++ n :: post)
      pending heap).1 = some e' := by
  induction pre generalizing pending heap with
  | nil =>
    have hb := (loopBody_error_iff p deserialize (some reader) now heap n e).2
      (geoOf_error reader n.N e hgeo)
    exact ⟨e, by rw [List.nil_append, execLoop_cons_error drv p deserialize (some reader) now
      committed n post pending heap e hb]⟩
  | cons m pre ih =>
    rw [List.cons_append]
    cases hb : (loopBody p deserialize (some reader) now heap m).2 with
    | error e1 =>
      exact ⟨e1, by rw [execLoop_cons_error drv p deserialize (some reader) now committed m
        _ pending heap e1 hb]⟩
    | ok args =>
      cases hx : drv.exec committed pending insertNodes args.toList with
      | some e1 =>
        exact ⟨e1, by rw [execLoop_cons_refused drv p deserialize (some reader) now committed
          m _ pending heap args e1 hb hx]⟩
      | none =>
        rw [execLoop_cons_ok drv p deserialize (some reader) now committed m _ pending heap
          args hb hx]
        exact ih _ _

/-- With a driver whose `Exec` never fails and without a reader, the loop gets through
the whole batch. -/
theorem execLoop_accepting (drv : Driver) (p : StaticFilters) (deserialize : Deserializer)
    (now : Time) (committed : List Row) (nodes : List NodeJSON) (pending : List Row)
    (heap : Heap) (hexec : ∀ c q s a, drv.exec c q s a = none) :
    (execLoop drv p deserialize none now committed nodes pending heap).1 = none := by
  induction nodes generalizing pending heap with
  | nil => rfl
  | cons n rest ih =>
    obtain ⟨args, hb⟩ := loopBody_isOk p deserialize none now heap n _ (geoOf_none n.N)
    rw [execLoop_cons_ok drv p deserialize none now committed n rest pending heap args hb
      (hexec _ _ _ _)]
    exact ih _ _

/-- The function `UpdateNodes` once the transaction is begun and the statement
prepared. -/
theorem UpdateNodes_begun (drv : Driver) (p : StaticFilters) (deserialize : Deserializer)
    (clock : Clock) (db : DB) (heap : Heap) (geoipDB : Option GeoReader)
    (nodes : List NodeJSON)
    (hb : drv.beginTx = none) (hp : drv.prepare insertNodes = none) :
    UpdateNodes drv p deserialize clock db heap geoipDB nodes =
      match execLoop drv p deserialize geoipDB (clock 0) db.committed nodes [] heap with
      | (some err, pending, heap) =>
        (some err, { db with inFlight := pending :: db.inFlight }, heap)
      | (none, pending, heap) =>
        match drv.commitTx db.committed pending with
        | some err => (some err, { db with inFlight := pending :: db.inFlight }, heap)
        | none => (none, { db with committed := db.committed ++ pending }, heap) := by
  simp only [UpdateNodes, hb, hp]

/-- The store after `UpdateNodes`: the committed rows are kept, and rows are added to
them only when the call returns without error. -/
theorem UpdateNodes_committed (drv : Driver) (p : StaticFilters) (deserialize : Deserializer)
    (clock : Clock) (db : DB) (heap : Heap) (geoipDB : Option GeoReader)
    (nodes : List NodeJSON) :
    ∃ added : List Row,
      (UpdateNodes drv p deserialize clock db heap geoipDB nodes).2.1.committed
        = db.committed ++ added ∧
      ((UpdateNodes drv p deserialize clock db heap geoipDB nodes).1 ≠ none → added = []) ∧
      ((UpdateNodes drv p deserialize clock db heap geoipDB nodes).1 = none →
        added.length = nodes.length) ∧
      ∀ r ∈ added, Row.column r "Now" = some (.text (clock 0).String) := by
  cases hb : drv.beginTx with
  | some e => exact ⟨[], by simp [UpdateNodes, hb]⟩
  | none =>
    cases hp : drv.prepare insertNodes with
    | some e => exact ⟨[], by simp [UpdateNodes, hb, hp]⟩
    | none =>
      obtain ⟨added, h1, _, h3, h4⟩ :=
        execLoop_pending drv p deserialize geoipDB (clock 0) db.committed nodes [] heap
      rw [UpdateNodes_begun drv p deserialize clock db heap geoipDB nodes hb hp]
      cases hl : execLoop drv p deserialize geoipDB (clock 0) db.committed nodes [] heap with
      | mk err rest =>
        obtain ⟨pending, heap'⟩ := rest
        rw [hl] at h1 h3
        simp only [List.nil_append] at h1
        subst h1
        cases err with
        | some e => exact ⟨[], by simp⟩
        | none =>
          cases hc : drv.commitTx db.committed pending with
          | some e => exact ⟨[], by simp [hc]⟩
          | none =>
            refine ⟨pending, by simp [hc], by simp [hc], ?_, h4⟩
            intro _
            exact h3 rfl

/-- The rows of a batch the loop got through: one per observation, in order. -/
theorem execLoop_rows_length (drv : Driver) (p : StaticFilters) (deserialize : Deserializer)
    (geoipDB : Option GeoReader) (now : Time) (committed : List Row)
    (nodes : List NodeJSON) (pending : List Row) (heap : Heap)
    (h : (execLoop drv p deserialize geoipDB now committed nodes pending heap).1 = none) :
    (execLoop drv p deserialize geoipDB now committed nodes pending heap).2.1.length
      = pending.length + nodes.length := by
  obtain ⟨added, h1, _, h3, _⟩ :=
    execLoop_pending drv p deserialize geoipDB now committed nodes pending heap
  rw [h1, List.length_append, h3 h]

/-- The loop body leaves every record alone but the one behind `n.Info`. -/
theorem loopBody_heap_other (p : StaticFilters) (deserialize : Deserializer)
    (geoipDB : Option GeoReader) (now : Time) (heap : Heap) (n : NodeJSON) (ptr : Ptr)
    (h : n.Info ≠ some ptr) :
    (loopBody p deserialize geoipDB now heap n).1 ptr = heap ptr := by
  rw [loopBody_heap]
  unfold writeBack
  cases hi : n.Info with
  | none => rfl
  | some q =>
    have hq : ptr ≠ q := fun e => h (by rw [hi, e])
    simp [Heap.store, hq]

/-- The loop body changes at most the client type of a record. -/
theorem loopBody_heap_fields (p : StaticFilters) (deserialize : Deserializer)
    (geoipDB : Option GeoReader) (now : Time) (heap : Heap) (n : NodeJSON) (ptr : Ptr) :
    ∃ clientType, (loopBody p deserialize geoipDB now heap n).1 ptr
      = { heap ptr with ClientType := clientType } := by
  by_cases h : n.Info = some ptr
  · rw [loopBody_heap]
    unfold writeBack
    simp only [h, Heap.store, if_true]
    cases n.N.loadETH2 with
    | some _ =>
      refine ⟨"eth2", ?_⟩
      simp only [infoOf, infoAt, h]
      split <;> rfl
    | none =>
      simp only [infoOf, infoAt, h]
      split
      · exact ⟨"tmp", rfl⟩
      · exact ⟨(heap ptr).ClientType, rfl⟩
  · exact ⟨(heap ptr).ClientType,
      by rw [loopBody_heap_other p deserialize geoipDB now heap n ptr h]⟩

/-- The loop leaves alone every record that no observation of the batch points to. -/
theorem execLoop_heap_other (drv : Driver) (p : StaticFilters) (deserialize : Deserializer)
    (geoipDB : Option GeoReader) (now : Time) (committed : List Row)
    (nodes : List NodeJSON) (pending : List Row) (heap : Heap) (ptr : Ptr)
    (h : ∀ m ∈ nodes, m.Info ≠ some ptr) :
    (execLoop drv p deserialize geoipDB now committed nodes pending heap).2.2 ptr
      = heap ptr := by
  induction nodes generalizing pending heap with
  | nil => rfl
  | cons n rest ih =>
    have hn := loopBody_heap_other p deserialize geoipDB now heap n ptr
      (h n (List.mem_cons_self _ _))
    have hrest : ∀ m ∈ rest, m.Info ≠ some ptr := fun m hm => h m (List.mem_cons_of_mem _ hm)
    cases hb : (loopBody p deserialize geoipDB now heap n).2 with
    | error e =>
      rw [execLoop_cons_error drv p deserialize geoipDB now committed n rest pending heap e hb]
      exact hn
    | ok args =>
      cases hx : drv.exec committed pending insertNodes args.toList with
      | some e =>
        rw [execLoop_cons_refused drv p deserialize geoipDB now committed n rest pending heap
          args e hb hx]
        exact hn
      | none =>
        rw [execLoop_cons_ok drv p deserialize geoipDB now committed n rest pending heap
          args hb hx, ih _ _ hrest, hn]

/-- The loop changes at most the client type of a record: the fork id and the
capabilities of every record are those the caller passed. -/
theorem execLoop_heap_fields (drv : Driver) (p : StaticFilters) (deserialize : Deserializer)
    (geoipDB : Option GeoReader) (now : Time) (committed : List Row)
    (nodes : List NodeJSON) (pending : List Row) (heap : Heap) (ptr : Ptr) :
    ∃ clientType,
      (execLoop drv p deserialize geoipDB now committed nodes pending heap).2.2 ptr
        = { heap ptr with ClientType := clientType } := by
  induction nodes generalizing pending heap with
  | nil => exact ⟨(heap ptr).ClientType, rfl⟩
  | cons n rest ih =>
    obtain ⟨c1, h1⟩ := loopBody_heap_fields p deserialize geoipDB now heap n ptr
    cases hb : (loopBody p deserialize geoipDB now heap n).2 with
    | error e =>
      rw [execLoop_cons_error drv p deserialize geoipDB now committed n rest pending heap e hb]
      exact ⟨c1, h1⟩
    | ok args =>
      cases hx : drv.exec committed pending insertNodes args.toList with
      | some e =>
        rw [execLoop_cons_refused drv p deserialize geoipDB now committed n rest pending heap
          args e hb hx]
        exact ⟨c1, h1⟩
      | none =>
        rw [execLoop_cons_ok drv p deserialize geoipDB now committed n rest pending heap
          args hb hx]
        obtain ⟨c2, h2⟩ := ih (pending ++ [rowOf insertNodes args.toList])
          (loopBody p deserialize geoipDB now heap n).1
        exact ⟨c2, by rw [h2, h1]⟩

theorem infoOf_capabilities (heap : Heap) (n : NodeJSON) :
    (infoOf heap n).Capabilities = (infoAt heap n).Capabilities := by
  unfold infoOf
  simp only
  split <;> rfl

theorem infoOf_forkID (heap : Heap) (n : NodeJSON) :
    (infoOf heap n).ForkID = (infoAt heap n).ForkID := by
  unfold infoOf
  simp only
  split <;> rfl

theorem capsOf_foldl (cs : List Cap) (init : String) :
    cs.foldl (fun caps c => caps ++ ", " ++ c.String) init = init ++ capsDisplay cs := by
  induction cs generalizing init with
  | nil => simp [capsDisplay]
  | cons c cs ih =>
    rw [List.foldl_cons, ih, capsDisplay]
    simp only [String.append_assoc]

theorem capsOf_eq (cs : List Cap) : capsOf cs = capsDisplay cs := by
  unfold capsOf
  rw [capsOf_foldl]
  simp

/-- A loop that gets through a batch gets through every first part of it. -/
theorem execLoop_prefix (drv : Driver) (p : StaticFilters) (deserialize : Deserializer)
    (geoipDB : Option GeoReader) (now : Time) (committed : List Row)
    (pre rest : List NodeJSON) (pending : List Row) (heap : Heap)
    (h : (execLoop drv p deserialize geoipDB now committed (pre ++ rest) pending heap).1
      = none) :
    (execLoop drv p deserialize geoipDB now committed pre pending heap).1 = none := by
  induction pre generalizing pending heap with
  | nil => rfl
  | cons n pre ih =>
    rw [List.cons_append] at h
    cases hb : (loopBody p deserialize geoipDB now heap n).2 with
    | error e =>
      rw [execLoop_cons_error drv p deserialize geoipDB now committed n _ pending heap e
        hb] at h
      cases h
    | ok args =>
      cases hx : drv.exec committed pending insertNodes args.toList with
      | some e =>
        rw [execLoop_cons_refused drv p deserialize geoipDB now committed n _ pending heap
          args e hb hx] at h
        cases h
      | none =>
        rw [execLoop_cons_ok drv p deserialize geoipDB now committed n _ pending heap
          args hb hx] at h
        rw [execLoop_cons_ok drv p deserialize geoipDB now committed n _ pending heap
          args hb hx]
        exact ih _ _ h

/-- The row of the observation at position `pre.length` of a batch the loop got through:
it is made of the arguments the loop body computed for that observation, on the heap
the observations before it left. -/
theorem execLoop_row_at (drv : Driver) (p : StaticFilters) (deserialize : Deserializer)
    (geoipDB : Option GeoReader) (now : Time) (committed : List Row)
    (pre post : List NodeJSON) (n : NodeJSON) (pending : List Row) (heap : Heap)
    (h : (execLoop drv p deserialize geoipDB now committed (pre ++ n :: post) pending
      heap).1 = none) :
    ∃ args,
      (loopBody p deserialize geoipDB now
        (execLoop drv p deserialize geoipDB now committed pre pending heap).2.2 n).2
        = .ok args ∧
      (execLoop drv p deserialize geoipDB now committed (pre ++ n :: post) pending
        heap).2.1[pending.length + pre.length]?
        = some (rowOf insertNodes args.toList) := by
  have hpre := execLoop_prefix drv p deserialize geoipDB now committed pre (n :: post)
    pending heap h
  have hlen := execLoop_rows_length drv p deserialize geoipDB now committed pre pending
    heap hpre
  rw [execLoop_append drv p deserialize geoipDB now committed pre (n :: post) pending heap
    hpre] at h ⊢
  generalize (execLoop drv p deserialize geoipDB now committed pre pending heap).2.1 = P
    at h hlen ⊢
  generalize (execLoop drv p deserialize geoipDB now committed pre pending heap).2.2 = H
    at h ⊢
  cases hb : (loopBody p deserialize geoipDB now H n).2 with
  | error e =>
    rw [execLoop_cons_error drv p deserialize geoipDB now committed n post P H e hb] at h
    cases h
  | ok args =>
    cases hx : drv.exec committed P insertNodes args.toList with
    | some e =>
      rw [execLoop_cons_refused drv p deserialize geoipDB now committed n post P H args e
        hb hx] at h
      cases h
    | none =>
      rw [execLoop_cons_ok drv p deserialize geoipDB now committed n post P H args hb hx]
      obtain ⟨added, h1, _, _, _⟩ := execLoop_pending drv p deserialize geoipDB now
        committed post (P ++ [rowOf insertNodes args.toList])
        (loopBody p deserialize geoipDB now H n).1
      refine ⟨args, rfl, ?_⟩
      rw [h1, ← hlen, List.append_assoc, List.getElem?_append_right (Nat.le_refl _)]
      simp

/-- The row a successful `UpdateNodes` commits for the observation at position
`pre.length` of the batch. -/
theorem UpdateNodes_row_at (drv : Driver) (p : StaticFilters) (deserialize : Deserializer)
    (clock : Clock) (db : DB) (heap : Heap) (geoipDB : Option GeoReader)
    (pre post : List NodeJSON) (n : NodeJSON)
    (h : (UpdateNodes drv p deserialize clock db heap geoipDB (pre ++ n :: post)).1 = none) :
    ∃ args,
      (loopBody p deserialize geoipDB (clock 0)
        (execLoop drv p deserialize geoipDB (clock 0) db.committed pre [] heap).2.2 n).2
        = .ok args ∧
      (UpdateNodes drv p deserialize clock db heap geoipDB
        (pre ++ n :: post)).2.1.committed[db.committed.length + pre.length]?
        = some (rowOf insertNodes args.toList) := by
  cases hb : drv.beginTx with
  | some e => simp [UpdateNodes, hb] at h
  | none =>
    cases hp : drv.prepare insertNodes with
    | some e => simp [UpdateNodes, hb, hp] at h
    | none =>
      rw [UpdateNodes_begun drv p deserialize clock db heap geoipDB _ hb hp] at h ⊢
      have hrow := execLoop_row_at drv p deserialize geoipDB (clock 0) db.committed pre post
        n [] heap
      cases hl : execLoop drv p deserialize geoipDB (clock 0) db.committed
          (pre ++ n :: post) [] heap with
      | mk err rest =>
        obtain ⟨pending, heap'⟩ := rest
        rw [hl] at h hrow
        cases err with
        | some e => simp at h
        | none =>
          cases hc : drv.commitTx db.committed pending with
          | some e => simp [hc] at h
          | none =>
            obtain ⟨args, ha, hget⟩ := hrow rfl
            refine ⟨args, ha, ?_⟩
            simp only [List.length_nil, Nat.zero_add] at hget
            simp only [hc]
            rw [List.getElem?_append_right (Nat.le_add_right _ _)]
            simpa using hget

end crawlerdb
/-! ## The classifier -/

theorem rangeFilters_le (fid : ForkID) (reg : List forkIDFilterer) (i : Nat)
    (hi : i < reg.length) (hmatch : (reg.get ⟨i, hi⟩).filter fid = none) :
    ∃ (j : Nat) (hj : j < reg.length), j ≤ i ∧ (reg.get ⟨j, hj⟩).filter fid = none ∧
      rangeFilters fid reg = (reg.get ⟨j, hj⟩).name := by
  induction reg generalizing i with
  | nil => exact absurd hi (Nat.not_lt_zero _)
  | cons t rest ih =>
    by_cases h0 : t.filter fid = none
    · exact ⟨0, Nat.succ_pos _, Nat.zero_le _, h0, by simp [rangeFilters, h0]⟩
    · cases i with
      | zero => exact absurd hmatch h0
      | succ k =>
        obtain ⟨j, hj, hjk, hm, hr⟩ := ih k (Nat.lt_of_succ_lt_succ hi) hmatch
        exact ⟨j + 1, Nat.succ_lt_succ hj, Nat.succ_le_succ hjk, hm,
          by simpa [rangeFilters, h0] using hr⟩

/-- C1: `ForkIDName`, and its copy `forkIDName` in package crawlerdb, return the name of
the first entry of the registry `forkIDFilters`, in list order, whose filter returns no
error on the fork id: the name of entry `i` when entry `i` matches and no entry before it
does; when entries `i < k` both match, the name of a matching entry at or before `i`
(never the later one's on account of `k`); and the empty string when no entry matches. -/
theorem ForkIDName_first_match (p : StaticFilters) (fid : ForkID) :
    crawlerdb.forkIDName p fid = common.ForkIDName p fid ∧
    (∀ (i : Nat) (hi : i < (common.forkIDFilters p).length),
      ((common.forkIDFilters p).get ⟨i, hi⟩).filter fid = none →
      (∀ (j : Nat) (hj : j < (common.forkIDFilters p).length), j < i →
        ((common.forkIDFilters p).get ⟨j, hj⟩).filter fid ≠ none) →
      common.ForkIDName p fid = ((common.forkIDFilters p).get ⟨i, hi⟩).name) ∧
    (∀ (i k : Nat) (hi : i < (common.forkIDFilters p).length)
      (hk : k < (common.forkIDFilters p).length), i < k →
      ((common.forkIDFilters p).get ⟨i, hi⟩).filter fid = none →
      ((common.forkIDFilters p).get ⟨k, hk⟩).filter fid = none →
      ∃ (j : Nat) (hj : j < (common.forkIDFilters p).length), j ≤ i ∧
        ((common.forkIDFilters p).get ⟨j, hj⟩).filter fid = none ∧
        common.ForkIDName p fid = ((common.forkIDFilters p).get ⟨j, hj⟩).name) ∧
    ((∀ t ∈ common.forkIDFilters p, t.filter fid ≠ none) → common.ForkIDName p fid = "") := by
  refine ⟨rfl, ?_, ?_, ?_⟩
  · intro i hi hmatch hearlier
    exact rangeFilters_first fid (common.forkIDFilters p) i hi hmatch hearlier
  · intro i k hi _ _ hmatch _
    exact rangeFilters_le fid (common.forkIDFilters p) i hi hmatch
  · intro hall
    exact rangeFilters_none fid (common.forkIDFilters p) hall

/-- C1 at concrete filters: a fork id that the `mainnet` entry (first) and the `classic`
entry (fourth) both accept is named `mainnet`; one that only `classic` accepts is named
`classic`; one that no entry accepts gets the empty name. -/
theorem ForkIDName_first_match_witness :
    Sample.filters.mainnet Sample.sharedForkID = none ∧
    Sample.filters.classic Sample.sharedForkID = none ∧
    common.ForkIDName Sample.filters Sample.sharedForkID = "mainnet" ∧
    crawlerdb.forkIDName Sample.filters Sample.classicForkID = "classic" ∧
    common.ForkIDName Sample.filters Sample.unknownForkID = "" :=
  ⟨by decide, by decide,
   (ForkIDName_first_match Sample.filters Sample.sharedForkID).2.1 0 (by decide) (by decide)
     (fun _ _ h => absurd h (Nat.not_lt_zero _)),
   ((ForkIDName_first_match Sample.filters Sample.classicForkID).1).trans
     ((ForkIDName_first_match Sample.filters Sample.classicForkID).2.1 3 (by decide) (by decide)
       (by decide)),
   (ForkIDName_first_match Sample.filters Sample.unknownForkID).2.2.2 (by decide)⟩

namespace crawlerdb

/-- C2, which the code does not meet: the statement of `UpdateNodes` lists the 21 columns
of the table and `stmt.Exec` binds 21 values, but the `VALUES` list has 20 placeholders.
A driver that checks statements as SQL requires refuses it: on every non-empty batch the
call returns an error and commits no row. -/
theorem UpdateNodes_placeholders_short (drv : Driver) (p : StaticFilters)
    (deserialize : Deserializer) (clock : Clock) (db : DB) (heap : Heap)
    (geoipDB : Option GeoReader) (n : NodeJSON) (rest : List NodeJSON)
    (hdrv : drv.checksStatements) :
    insertNodes.columns.length = 21 ∧
    insertNodes.columns = createColumns.map Prod.fst ∧
    (∀ a : ExecArgs, a.toList.length = 21) ∧
    insertNodes.values.length = 20 ∧
    (UpdateNodes drv p deserialize clock db heap geoipDB (n :: rest)).1 ≠ none ∧
    (UpdateNodes drv p deserialize clock db heap geoipDB (n :: rest)).2.1.committed
      = db.committed := by
  have hbad : ¬ insertNodes.wellFormed := by decide
  have herr : (UpdateNodes drv p deserialize clock db heap geoipDB (n :: rest)).1 ≠ none := by
    cases hb : drv.beginTx with
    | some e => simp [UpdateNodes, hb]
    | none =>
      cases hp : drv.prepare insertNodes with
      | some e => simp [UpdateNodes, hb, hp]
      | none =>
        rcases hdrv insertNodes hbad with h | h
        · exact absurd hp h
        · rw [UpdateNodes_begun drv p deserialize clock db heap geoipDB (n :: rest) hb hp]
          cases hl : (loopBody p deserialize geoipDB (clock 0) heap n).2 with
          | error e =>
            rw [execLoop_cons_error drv p deserialize geoipDB (clock 0) db.committed n rest
              [] heap e hl]
            simp
          | ok args =>
            cases hx : drv.exec db.committed [] insertNodes args.toList with
            | none => exact absurd hx (h _ _ _)
            | some e =>
              rw [execLoop_cons_refused drv p deserialize geoipDB (clock 0) db.committed n
                rest [] heap args e hl hx]
              simp
  refine ⟨rfl, rfl, fun _ => rfl, rfl, herr, ?_⟩
  obtain ⟨added, h1, h2, _, _⟩ :=
    UpdateNodes_committed drv p deserialize clock db heap geoipDB (n :: rest)
  rw [h1, h2 herr, List.append_nil]

theorem sqlDriver_checksStatements : Sample.sqlDriver.checksStatements := by
  intro s hs
  right
  intro c q a
  simp [Sample.sqlDriver, hs]

theorem sqlDriver_acceptsWellFormed : Sample.sqlDriver.acceptsWellFormed := by
  refine ⟨rfl, fun _ _ => rfl, ?_⟩
  intro s hs
  refine ⟨rfl, ?_⟩
  intro c q a ha
  simp [Sample.sqlDriver, hs, ha]

/-- C2 at a concrete input: a driver that accepts well-formed statements and checks
them, one observation, no geolocation reader. The call returns the driver's error and
the store stays empty. -/
theorem UpdateNodes_placeholders_short_witness :
    Sample.sqlDriver.acceptsWellFormed ∧
    (UpdateNodes Sample.sqlDriver Sample.filters Sample.deserialize Sample.clock
      Sample.emptyDB Sample.heap none [Sample.obsLive]).1
      = some "values do not match columns" ∧
    (UpdateNodes Sample.sqlDriver Sample.filters Sample.deserialize Sample.clock
      Sample.emptyDB Sample.heap none [Sample.obsLive]).2.1
      = { committed := [], inFlight := [[]] } ∧
    (UpdateNodes Sample.sqlDriver Sample.filters Sample.deserialize Sample.clock
      Sample.emptyDB Sample.heap none [Sample.obsLive]).1 ≠ none :=
  ⟨sqlDriver_acceptsWellFormed, by decide, by decide,
   (UpdateNodes_placeholders_short Sample.sqlDriver Sample.filters Sample.deserialize
      Sample.clock Sample.emptyDB Sample.heap none Sample.obsLive []
      sqlDriver_checksStatements).2.2.2.2.1⟩

/-- C3, as the code has it: when the geolocation lookup fails on the observation at
position `pre.length` of a batch, with reader `reader` and error `e`, `UpdateNodes`
returns an error and the committed rows of the store are those from before the call. The
error is the one of that lookup when the call gets as far as that lookup: the
transaction begins, the statement is prepared and the loop gets through the observations
before it, whose rows, one each, then stay in a transaction that is never committed.
Otherwise the error is the one the call met first. -/
theorem UpdateNodes_geo_error (drv : Driver) (p : StaticFilters)
    (deserialize : Deserializer) (clock : Clock) (db : DB) (heap : Heap) (reader : GeoReader)
    (pre post : List NodeJSON) (n : NodeJSON) (e : Err)
    (hgeo : reader n.N.ip = .error e) :
    (∃ e', (UpdateNodes drv p deserialize clock db heap (some reader) (pre ++ n :: post)).1
      = some e') ∧
    (UpdateNodes drv p deserialize clock db heap (some reader)
      (pre ++ n :: post)).2.1.committed = db.committed ∧
    (drv.beginTx = none → drv.prepare insertNodes = none →
      (execLoop drv p deserialize (some reader) (clock 0) db.committed pre [] heap).1 = none →
      (UpdateNodes drv p deserialize clock db heap (some reader) (pre ++ n :: post)).1
        = some e ∧
      (UpdateNodes drv p deserialize clock db heap (some reader) (pre ++ n :: post)).2.1
        = { db with inFlight :=
            (execLoop drv p deserialize (some reader) (clock 0) db.committed pre [] heap).2.1
              :: db.inFlight } ∧
      (execLoop drv p deserialize (some reader) (clock 0) db.committed pre [] heap).2.1.length
        = pre.length) := by
  have herr : ∃ e', (UpdateNodes drv p deserialize clock db heap (some reader)
      (pre ++ n :: post)).1 = some e' := by
    cases hb : drv.beginTx with
    | some e1 => exact ⟨e1, by simp [UpdateNodes, hb]⟩
    | none =>
      cases hp : drv.prepare insertNodes with
      | some e1 => exact ⟨e1, by simp [UpdateNodes, hb, hp]⟩
      | none =>
        obtain ⟨e1, h1⟩ := execLoop_geo_error drv p deserialize reader (clock 0)
          db.committed pre post n e [] heap hgeo
        rw [UpdateNodes_begun drv p deserialize clock db heap (some reader) _ hb hp]
        cases hl : execLoop drv p deserialize (some reader) (clock 0) db.committed
            (pre ++ n :: post) [] heap with
        | mk err rest =>
          obtain ⟨pending, heap'⟩ := rest
          rw [hl] at h1
          simp only at h1
          subst h1
          exact ⟨e1, rfl⟩
  refine ⟨herr, ?_, ?_⟩
  · obtain ⟨added, h1, h2, _, _⟩ :=
      UpdateNodes_committed drv p deserialize clock db heap (some reader) (pre ++ n :: post)
    obtain ⟨e', he'⟩ := herr
    rw [h1, h2 (by rw [he']; simp), List.append_nil]
  · intro hb hp hpre
    have hbody := (loopBody_error_iff p deserialize (some reader) (clock 0)
      (execLoop drv p deserialize (some reader) (clock 0) db.committed pre [] heap).2.2 n
      e).2 (geoOf_error reader n.N e hgeo)
    rw [UpdateNodes_begun drv p deserialize clock db heap (some reader) _ hb hp,
      execLoop_append drv p deserialize (some reader) (clock 0) db.committed pre
        (n :: post) [] heap hpre,
      execLoop_cons_error drv p deserialize (some reader) (clock 0) db.committed n post _ _
        e hbody]
    refine ⟨rfl, rfl, ?_⟩
    have := execLoop_rows_length drv p deserialize (some reader) (clock 0) db.committed pre
      [] heap hpre
    simpa using this

/-- C3 at concrete batches. With a driver that checks statements, the lookup fails on
the first observation and the call returns the lookup's error. With a driver that
accepts every execution, the lookup succeeds on the first observation and fails on the
second: the call returns the lookup's error, nothing is committed, and the row executed
for the first observation stays in the open transaction. -/
theorem UpdateNodes_geo_error_witness :
    Sample.reader Sample.obsTooMany.N.ip = .error "address not found" ∧
    (UpdateNodes Sample.sqlDriver Sample.filters Sample.deserialize Sample.clock
      Sample.emptyDB Sample.heap (some Sample.reader) [Sample.obsTooMany, Sample.obsLive]).1
      = some "address not found" ∧
    (UpdateNodes Sample.laxDriver Sample.filters Sample.deserialize Sample.clock
      Sample.emptyDB Sample.heap (some Sample.reader) [Sample.obsLive, Sample.obsTooMany]).1
      = some "address not found" ∧
    (UpdateNodes Sample.laxDriver Sample.filters Sample.deserialize Sample.clock
      Sample.emptyDB Sample.heap (some Sample.reader)
      [Sample.obsLive, Sample.obsTooMany]).2.1.committed = [] ∧
    ((UpdateNodes Sample.laxDriver Sample.filters Sample.deserialize Sample.clock
      Sample.emptyDB Sample.heap (some Sample.reader)
      [Sample.obsLive, Sample.obsTooMany]).2.1.inFlight.map List.length) = [1] :=
  have h0 := UpdateNodes_geo_error Sample.sqlDriver Sample.filters Sample.deserialize
    Sample.clock Sample.emptyDB Sample.heap Sample.reader [] [Sample.obsLive]
    Sample.obsTooMany "address not found" rfl
  have h := UpdateNodes_geo_error Sample.laxDriver Sample.filters Sample.deserialize
    Sample.clock Sample.emptyDB Sample.heap Sample.reader [Sample.obsLive] []
    Sample.obsTooMany "address not found" rfl
  have h' := h.2.2 rfl rfl (by decide)
  ⟨rfl, (h0.2.2 rfl rfl rfl).1, h'.1, h.2.1,
   (congrArg (fun d => d.inFlight.map List.length) h'.2.1).trans (by decide)⟩

/-- C3 fails as stated: in a batch of two observations whose lookups both fail, with
different errors, the call returns the error of the first lookup, not the one of the
lookup on the second observation. -/
theorem UpdateNodes_geo_error_first :
    Sample.reader Sample.obsNoAddr.N.ip = .error "unspecified address" ∧
    Sample.reader Sample.obsTooMany.N.ip = .error "address not found" ∧
    (UpdateNodes Sample.sqlDriver Sample.filters Sample.deserialize Sample.clock
      Sample.emptyDB Sample.heap (some Sample.reader)
      [Sample.obsNoAddr, Sample.obsTooMany]).1 = some "unspecified address" ∧
    (UpdateNodes Sample.sqlDriver Sample.filters Sample.deserialize Sample.clock
      Sample.emptyDB Sample.heap (some Sample.reader)
      [Sample.obsNoAddr, Sample.obsTooMany]).1 ≠ some "address not found" :=
  ⟨rfl, rfl, by decide, by decide⟩

/-- C4: the value `UpdateNodes` binds to column `ConnType` for an observation is `TCP`
whenever the `tcp` entry of the peer record loads (also when the `udp` entry loads too),
`UDP` when only the `udp` entry loads, and the empty string when neither does. -/
theorem UpdateNodes_connType (p : StaticFilters) (deserialize : Deserializer)
    (geoipDB : Option GeoReader) (now : Time) (heap : Heap) (n : NodeJSON) (args : ExecArgs)
    (h : (loopBody p deserialize geoipDB now heap n).2 = .ok args) :
    Row.column (rowOf insertNodes args.toList) "ConnType" = some (.text args.ConnType) ∧
    (n.N.loadTCP.isSome = true → args.ConnType = "TCP") ∧
    (n.N.loadTCP = none → n.N.loadUDP.isSome = true → args.ConnType = "UDP") ∧
    (n.N.loadTCP = none → n.N.loadUDP = none → args.ConnType = "") := by
  obtain ⟨_, _, _, _, _, _, hconn, _⟩ := loopBody_ok p deserialize geoipDB now heap n args h
  refine ⟨column_ConnType args, ?_, ?_, ?_⟩
  · intro ht
    simp [hconn, connTypeOf, ht]
  · intro ht hu
    simp [hconn, connTypeOf, ht, hu]
  · intro ht hu
    simp [hconn, connTypeOf, ht, hu]

/-- C4 at concrete observations: a peer record with both entries is recorded as `TCP`,
one with the `udp` entry only as `UDP`. -/
theorem UpdateNodes_connType_witness :
    Sample.obsLive.N.loadUDP.isSome = true ∧ Sample.obsLive.N.loadTCP.isSome = true ∧
    (∃ args, (loopBody Sample.filters Sample.deserialize none (Sample.clock 0) Sample.heap
        Sample.obsLive).2 = .ok args ∧ args.ConnType = "TCP") ∧
    (∃ args, (loopBody Sample.filters Sample.deserialize none (Sample.clock 0) Sample.heap
        Sample.obsTooMany).2 = .ok args ∧ args.ConnType = "UDP") :=
  ⟨rfl, rfl,
   ⟨_, rfl, (UpdateNodes_connType Sample.filters Sample.deserialize none (Sample.clock 0)
      Sample.heap Sample.obsLive _ rfl).2.1 rfl⟩,
   ⟨_, rfl, (UpdateNodes_connType Sample.filters Sample.deserialize none (Sample.clock 0)
      Sample.heap Sample.obsTooMany _ rfl).2.2.1 rfl rfl⟩⟩

/-- C5: for an observation whose peer record carries the `eth2` entry, the value bound
to column `ClientType` is `eth2` whatever the handshake reported; the value bound to
column `ForkID` is built from the decoded fork digest and next fork epoch when the entry
deserializes, and is the classic `Hash: <ForkID.Hash>, Next <ForkID.Next>` string when it
does not. A failed deserialization is no error of the loop body, which returns an error
exactly when the geolocation lookup does; and whatever the decoder answers, a batch whose
executions the driver accepts is committed with one row per observation. The fork id of
a record is the one the caller passed: the loop never writes to it. -/
theorem UpdateNodes_eth2 (p : StaticFilters) (deserialize : Deserializer)
    (geoipDB : Option GeoReader) (now : Time) (heap : Heap) (n : NodeJSON) (eth2 : List Nat)
    (heth : n.N.loadETH2 = some eth2) :
    (∀ args, (loopBody p deserialize geoipDB now heap n).2 = .ok args →
      Row.column (rowOf insertNodes args.toList) "ClientType" = some (.text "eth2") ∧
      (∀ dat, deserialize eth2 = some dat →
        Row.column (rowOf insertNodes args.toList) "ForkID" = some (.text
          (sprintfHashNext (forkDigestString dat.ForkDigest) (toString dat.NextForkEpoch)))) ∧
      (deserialize eth2 = none →
        Row.column (rowOf insertNodes args.toList) "ForkID" = some (.text
          (sprintfHashNext (fmtByteArray (infoAt heap n).ForkID.Hash)
            (toString (infoAt heap n).ForkID.Next))))) ∧
    (∀ e, (loopBody p deserialize geoipDB now heap n).2 = .error e ↔
      geoOf geoipDB n.N = .error e) ∧
    (∀ g, geoOf geoipDB n.N = .ok g →
      ∃ args, (loopBody p deserialize geoipDB now heap n).2 = .ok args) ∧
    (∀ (drv : Driver) (clock : Clock) (db : DB) (pre post : List NodeJSON),
      drv.beginTx = none → drv.prepare insertNodes = none →
      (∀ c q s a, drv.exec c q s a = none) → (∀ c q, drv.commitTx c q = none) →
      (UpdateNodes drv p deserialize clock db heap none (pre ++ n :: post)).1 = none ∧
      ∃ added : List Row,
        (UpdateNodes drv p deserialize clock db heap none (pre ++ n :: post)).2.1.committed
          = db.committed ++ added ∧
        added.length = (pre ++ n :: post).length) ∧
    (∀ (drv : Driver) (committed : List Row) (pre : List NodeJSON) (pending : List Row)
      (heap0 : Heap) (ptr : Ptr),
      ((execLoop drv p deserialize geoipDB now committed pre pending heap0).2.2 ptr).ForkID
        = (heap0 ptr).ForkID) := by
  refine ⟨?_, fun e => loopBody_error_iff p deserialize geoipDB now heap n e,
    fun g hg => loopBody_isOk p deserialize geoipDB now heap n g hg, ?_, ?_⟩
  · intro args h
    obtain ⟨_, _, _, _, _, _, _, htype, hfid, _⟩ :=
      loopBody_ok p deserialize geoipDB now heap n args h
    rw [heth] at htype hfid
    simp only at htype hfid
    refine ⟨by rw [column_ClientType, htype], ?_, ?_⟩
    · intro dat hdat
      rw [hdat] at hfid
      rw [column_ForkID, hfid]
    · intro hdat
      rw [hdat, infoOf_forkID] at hfid
      rw [column_ForkID, hfid]
  · intro drv clock db pre post hb hp hexec hcommit
    have hloop := execLoop_accepting drv p deserialize (clock 0) db.committed
      (pre ++ n :: post) [] heap hexec
    have hres : (UpdateNodes drv p deserialize clock db heap none (pre ++ n :: post)).1
        = none := by
      rw [UpdateNodes_begun drv p deserialize clock db heap none _ hb hp]
      cases hl : execLoop drv p deserialize none (clock 0) db.committed (pre ++ n :: post)
          [] heap with
      | mk err rest =>
        obtain ⟨pending, heap'⟩ := rest
        rw [hl] at hloop
        simp only at hloop
        subst hloop
        simp [hcommit]
    obtain ⟨added, h1, _, h3, _⟩ :=
      UpdateNodes_committed drv p deserialize clock db heap none (pre ++ n :: post)
    exact ⟨hres, added, h1, h3 hres⟩
  · intro drv committed pre pending heap0 ptr
    obtain ⟨c, hc⟩ := execLoop_heap_fields drv p deserialize geoipDB now committed pre
      pending heap0 ptr
    rw [hc]

/-- C5 at a concrete observation whose `eth2` entry (three bytes) the decoder refuses:
the client type is `eth2`, not the one of the handshake, the fork display is the classic
one, and the batch is committed with its row. -/
theorem UpdateNodes_eth2_witness :
    Sample.obsEth2Bad.N.loadETH2 = some [1, 2, 3] ∧ Sample.deserialize [1, 2, 3] = none ∧
    (∃ args, (loopBody Sample.filters Sample.deserialize none (Sample.clock 0) Sample.heap
        Sample.obsEth2Bad).2 = .ok args ∧
      Row.column (rowOf insertNodes args.toList) "ClientType" = some (.text "eth2") ∧
      Row.column (rowOf insertNodes args.toList) "ForkID"
        = some (.text "Hash: [252 100 236 4], Next 1150000")) ∧
    (UpdateNodes Sample.laxDriver Sample.filters Sample.deserialize Sample.clock
      Sample.emptyDB Sample.heap none [Sample.obsEth2Bad]).1 = none :=
  have h := UpdateNodes_eth2 Sample.filters Sample.deserialize none (Sample.clock 0)
    Sample.heap Sample.obsEth2Bad [1, 2, 3] rfl
  ⟨rfl, rfl,
   ⟨_, rfl, (h.1 _ rfl).1, ((h.1 _ rfl).2.2 rfl).trans (by decide)⟩,
   (h.2.2.2.1 Sample.laxDriver Sample.clock Sample.emptyDB [] [] rfl rfl
      (fun _ _ _ _ => rfl) (fun _ _ => rfl)).1⟩

/-- C6, as the code has it: take the observation `n` at position `pre.length` of a batch,
without `eth2` entry, and the arguments the loop body binds for it on the records as the
observations before it left them. The value bound to column `ClientType` is the
placeholder `tmp` when no `ClientInfo` was captured and `TooManyPeers` is set, and is
empty when none was captured and the flag is not set. With a captured `ClientInfo` it is
the non-empty client type the record holds when the loop reaches the observation,
whatever the flag: that is the client type of the handshake, the one the caller passed,
when no earlier observation of the batch holds the same pointer. When the call returns
without error these arguments make the row committed for the observation. -/
theorem UpdateNodes_clientType (drv : Driver) (p : StaticFilters)
    (deserialize : Deserializer) (clock : Clock) (db : DB) (heap : Heap)
    (geoipDB : Option GeoReader) (pre post : List NodeJSON) (n : NodeJSON) (args : ExecArgs)
    (heth : n.N.loadETH2 = none)
    (h : (loopBody p deserialize geoipDB (clock 0)
      (execLoop drv p deserialize geoipDB (clock 0) db.committed pre [] heap).2.2 n).2
      = .ok args) :
    Row.column (rowOf insertNodes args.toList) "ClientType" = some (.text args.ClientType) ∧
    (n.Info = none → n.TooManyPeers = true → args.ClientType = "tmp") ∧
    (n.Info = none → n.TooManyPeers = false → args.ClientType = "") ∧
    (∀ ptr, n.Info = some ptr → (∀ m ∈ pre, m.Info ≠ some ptr) →
      (heap ptr).ClientType ≠ "" → args.ClientType = (heap ptr).ClientType) ∧
    (∀ ptr, n.Info = some ptr →
      ((execLoop drv p deserialize geoipDB (clock 0) db.committed pre [] heap).2.2
        ptr).ClientType ≠ "" →
      args.ClientType =
        ((execLoop drv p deserialize geoipDB (clock 0) db.committed pre [] heap).2.2
          ptr).ClientType) ∧
    ((UpdateNodes drv p deserialize clock db heap geoipDB (pre ++ n :: post)).1 = none →
      (UpdateNodes drv p deserialize clock db heap geoipDB
        (pre ++ n :: post)).2.1.committed[db.committed.length + pre.length]?
        = some (rowOf insertNodes args.toList)) := by
  obtain ⟨_, _, _, _, _, _, _, htype, _⟩ := loopBody_ok p deserialize geoipDB (clock 0)
    (execLoop drv p deserialize geoipDB (clock 0) db.committed pre [] heap).2.2 n args h
  rw [heth] at htype
  simp only at htype
  have hcur : ∀ ptr, n.Info = some ptr →
      ((execLoop drv p deserialize geoipDB (clock 0) db.committed pre [] heap).2.2
        ptr).ClientType ≠ "" →
      args.ClientType =
        ((execLoop drv p deserialize geoipDB (clock 0) db.committed pre [] heap).2.2
          ptr).ClientType := by
    intro ptr hi hne
    simp [htype, infoOf, infoAt, hi, hne]
  refine ⟨column_ClientType args, ?_, ?_, ?_, hcur, ?_⟩
  · intro hi ht
    simp [htype, infoOf, infoAt, hi, ht, ClientInfo.zero]
  · intro hi ht
    simp [htype, infoOf, infoAt, hi, ht, ClientInfo.zero]
  · intro ptr hi hpre hne
    have hsame := execLoop_heap_other drv p deserialize geoipDB (clock 0) db.committed pre
      [] heap ptr hpre
    have := hcur ptr hi (by rw [hsame]; exact hne)
    rw [this, hsame]
  · intro hok
    obtain ⟨args', ha, hget⟩ := UpdateNodes_row_at drv p deserialize clock db heap geoipDB
      pre post n hok
    rw [h] at ha
    cases ha
    exact hget

/-- C6 at concrete observations: without handshake and with the flag set the client
type is `tmp`; with a handshake, in a batch where no earlier observation holds the same
pointer, the reported client type is kept although the flag is set. -/
theorem UpdateNodes_clientType_witness :
    Sample.obsTooMany.Info = none ∧ Sample.obsTooMany.TooManyPeers = true ∧
    (∃ args, (loopBody Sample.filters Sample.deserialize none (Sample.clock 0) Sample.heap
        Sample.obsTooMany).2 = .ok args ∧ args.ClientType = "tmp") ∧
    Sample.obsLive.Info = some 0 ∧ Sample.obsLive.TooManyPeers = true ∧
    (∃ args, (loopBody Sample.filters Sample.deserialize none (Sample.clock 0)
        (execLoop Sample.laxDriver Sample.filters Sample.deserialize none (Sample.clock 0)
          Sample.emptyDB.committed [Sample.obsEth2Bad] [] Sample.heap).2.2
        Sample.obsLive).2 = .ok args ∧
      args.ClientType = "Geth/v1.10.3-stable-991384a7/linux-amd64/go1.16.3") :=
  ⟨rfl, rfl,
   ⟨_, rfl, (UpdateNodes_clientType Sample.laxDriver Sample.filters Sample.deserialize
      Sample.clock Sample.emptyDB Sample.heap none [] [] Sample.obsTooMany _ rfl rfl).2.1
      rfl rfl⟩,
   rfl, rfl,
   ⟨_, rfl, (UpdateNodes_clientType Sample.laxDriver Sample.filters Sample.deserialize
      Sample.clock Sample.emptyDB Sample.heap none [Sample.obsEth2Bad] [] Sample.obsLive _
      rfl rfl).2.2.2.1 0 rfl (by decide) (by decide)⟩⟩

/-- C6 fails as stated: two observations of a batch hold the same pointer, the first
with an `eth2` entry and the second without. The loop writes `eth2` into the shared
record for the first, and for the second, which has no `eth2` entry and whose handshake
reported another, non-empty client type, it binds `eth2`: so on the heap the first
observation left, and so in the rows a driver that accepts every execution commits. -/
theorem UpdateNodes_clientType_shared :
    Sample.obsSameInfo.N.loadETH2 = none ∧
    Sample.obsSameInfo.Info = some 1 ∧ Sample.obsEth2Bad.Info = some 1 ∧
    (Sample.heap 1).ClientType = "Lighthouse/v4.5.0-441fc16/x86_64-linux" ∧
    (∃ args, (loopBody Sample.filters Sample.deserialize none (Sample.clock 0)
        (loopBody Sample.filters Sample.deserialize none (Sample.clock 0) Sample.heap
          Sample.obsEth2Bad).1 Sample.obsSameInfo).2 = .ok args ∧
      args.ClientType = "eth2") ∧
    (UpdateNodes Sample.laxDriver Sample.filters Sample.deserialize Sample.clock
      Sample.emptyDB Sample.heap none [Sample.obsEth2Bad, Sample.obsSameInfo]).1 = none ∧
    ((UpdateNodes Sample.laxDriver Sample.filters Sample.deserialize Sample.clock
      Sample.emptyDB Sample.heap none
      [Sample.obsEth2Bad, Sample.obsSameInfo]).2.1.committed.map
        (fun r => Row.column r "ClientType"))
      = [some (.text "eth2"), some (.text "eth2")] :=
  ⟨rfl, rfl, rfl, by decide, ⟨_, rfl, by decide⟩, by decide, by decide⟩

/-- C7, as the code has it: every row `UpdateNodes` commits carries, in column `Now` of
its key `(ID, Now)`, the rendering of the one reading of the clock taken before the
transaction begins; the rows of a batch all carry the same observation time. -/
theorem UpdateNodes_now_once (drv : Driver) (p : StaticFilters) (deserialize : Deserializer)
    (clock : Clock) (db : DB) (heap : Heap) (geoipDB : Option GeoReader)
    (nodes : List NodeJSON) :
    primaryKey = ["ID", "Now"] ∧
    ∃ added : List Row,
      (UpdateNodes drv p deserialize clock db heap geoipDB nodes).2.1.committed
        = db.committed ++ added ∧
      ((UpdateNodes drv p deserialize clock db heap geoipDB nodes).1 = none →
        added.length = nodes.length) ∧
      (∀ r ∈ added, Row.column r "Now" = some (.text (clock 0).String)) ∧
      ∀ r1 ∈ added, ∀ r2 ∈ added, Row.column r1 "Now" = Row.column r2 "Now" := by
  obtain ⟨added, h1, _, h3, h4⟩ :=
    UpdateNodes_committed drv p deserialize clock db heap geoipDB nodes
  exact ⟨rfl, added, h1, h3, h4, fun r1 hr1 r2 hr2 => (h4 r1 hr1).trans (h4 r2 hr2).symm⟩

/-- C7 fails as stated: with a clock whose readings all differ and a driver that accepts
every execution, the two rows committed for a batch of two observations carry the same
observation time, that of the first reading. -/
theorem UpdateNodes_now_shared :
    Sample.clock 0 ≠ Sample.clock 1 ∧
    (UpdateNodes Sample.laxDriver Sample.filters Sample.deserialize Sample.clock
      Sample.emptyDB Sample.heap none [Sample.obsLive, Sample.obsTooMany]).1 = none ∧
    ((UpdateNodes Sample.laxDriver Sample.filters Sample.deserialize Sample.clock
      Sample.emptyDB Sample.heap none [Sample.obsLive, Sample.obsTooMany]).2.1.committed.map
        (fun r => Row.column r "Now"))
      = [some (.text "1000"), some (.text "1000")] := by
  decide

/-- C10: the value bound to column `Capabilities` is the concatenation, in list order,
of `", "` followed by the rendering of each capability: the empty string for an empty
list, and a string that begins with the separator `", "` for every other list. The
capabilities of a record are those the caller passed: the loop never writes to them. -/
theorem UpdateNodes_caps (p : StaticFilters) (deserialize : Deserializer)
    (geoipDB : Option GeoReader) (now : Time) (heap : Heap) (n : NodeJSON) (args : ExecArgs)
    (h : (loopBody p deserialize geoipDB now heap n).2 = .ok args) :
    Row.column (rowOf insertNodes args.toList) "Capabilities"
      = some (.text (capsDisplay (infoAt heap n).Capabilities)) ∧
    ((infoAt heap n).Capabilities = [] → args.Capabilities = "") ∧
    (∀ c cs, (infoAt heap n).Capabilities = c :: cs →
      args.Capabilities = ", " ++ (c.String ++ capsDisplay cs)) ∧
    (∀ (drv : Driver) (committed : List Row) (pre : List NodeJSON) (pending : List Row)
      (heap0 : Heap) (ptr : Ptr),
      ((execLoop drv p deserialize geoipDB now committed pre pending heap0).2.2
        ptr).Capabilities = (heap0 ptr).Capabilities) := by
  obtain ⟨_, _, _, _, _, _, _, _, _, hcaps⟩ :=
    loopBody_ok p deserialize geoipDB now heap n args h
  rw [capsOf_eq, infoOf_capabilities] at hcaps
  refine ⟨by rw [column_Capabilities, hcaps], ?_, ?_, ?_⟩
  · intro hnil
    rw [hcaps, hnil]
    rfl
  · intro c cs hcons
    rw [hcaps, hcons, capsDisplay, String.append_assoc]
  · intro drv committed pre pending heap0 ptr
    obtain ⟨c, hc⟩ := execLoop_heap_fields drv p deserialize geoipDB now committed pre
      pending heap0 ptr
    rw [hc]

/-- C10 at a concrete observation with capabilities `eth/66` and `snap/1`. -/
theorem UpdateNodes_caps_witness :
    ∃ args, (loopBody Sample.filters Sample.deserialize none (Sample.clock 0) Sample.heap
        Sample.obsLive).2 = .ok args ∧
      Row.column (rowOf insertNodes args.toList) "Capabilities"
        = some (.text ", eth/66, snap/1") :=
  ⟨_, rfl, (UpdateNodes_caps Sample.filters Sample.deserialize none (Sample.clock 0)
      Sample.heap Sample.obsLive _ rfl).1.trans (by decide)⟩

end crawlerdb
/-! ## Lemmas on the version string parser -/

namespace vparser

theorem splitOn_of_not_mem (sep : Char) (l : List Char) (h : sep ∉ l) :
    splitOn sep l = [l] := by
  induction l with
  | nil => rfl
  | cons c cs ih =>
    have hc : c ≠ sep := fun e => h (e ▸ List.mem_cons_self _ _)
    have hcs : sep ∉ cs := fun m => h (List.mem_cons_of_mem _ m)
    simp [splitOn, hc, ih hcs]

theorem splitOn_append_sep (sep : Char) (l r : List Char) (h : sep ∉ l) :
    splitOn sep (l ++ sep :: r) = l :: splitOn sep r := by
  induction l with
  | nil => simp [splitOn]
  | cons c cs ih =>
    have hc : c ≠ sep := fun e => h (e ▸ List.mem_cons_self _ _)
    have hcs : sep ∉ cs := fun m => h (List.mem_cons_of_mem _ m)
    simp [splitOn, hc, ih hcs]

/-- Splitting undoes joining, for segments without the separator. -/
theorem splitOn_joinSegs (s : List Char) (segs : List (List Char))
    (h : ∀ t ∈ s :: segs, '/' ∉ t) : splitOn '/' (joinSegs (s :: segs)) = s :: segs := by
  induction segs generalizing s with
  | nil => simpa [joinSegs] using splitOn_of_not_mem '/' s (h s (List.mem_cons_self _ _))
  | cons t ts ih =>
    have hs : '/' ∉ s := h s (List.mem_cons_self _ _)
    have ht : ∀ u ∈ t :: ts, '/' ∉ u := fun u hu => h u (List.mem_cons_of_mem _ hu)
    rw [joinSegs, splitOn_append_sep '/' s _ hs, ih t ht]
    simp

/-- The pieces of a core followed by tokens, each token behind a separator. -/
theorem splitOn_tokens (sep : Char) (core : List Char) (toks : List (List Char))
    (hcore : sep ∉ core) (htoks : ∀ t ∈ toks, sep ∉ t) :
    splitOn sep (core ++ (toks.map (fun t => sep :: t)).flatten) = core :: toks := by
  induction toks generalizing core with
  | nil => simpa using splitOn_of_not_mem sep core hcore
  | cons t ts ih =>
    have ht : sep ∉ t := htoks t (List.mem_cons_self _ _)
    have hts : ∀ u ∈ ts, sep ∉ u := fun u hu => htoks u (List.mem_cons_of_mem _ hu)
    simp only [List.map_cons, List.flatten_cons, List.cons_append]
    rw [splitOn_append_sep sep core _ hcore, ih t ht hts]

theorem secondPair_cons (a : List Char) (rest : List (List Char)) :
    secondPair (a :: rest) =
      ((match rest with
        | b :: _ => !isVersionSeg a && isVersionSeg b
        | [] => false) || secondPair rest) := rfl

theorem secondPair_append (xs : List (List Char)) (a b : List Char) (post : List (List Char))
    (ha : isVersionSeg a = false) (hb : isVersionSeg b = true) :
    secondPair (xs ++ a :: b :: post) = true := by
  induction xs with
  | nil => simp [secondPair, ha, hb]
  | cons x xs ih =>
    rw [List.cons_append, secondPair_cons, ih, Bool.or_true]

theorem afterFirstVersion_suffix (mid : List (List Char)) (v : List Char)
    (rest : List (List Char)) (hv : isVersionSeg v = true) :
    ∃ xs, afterFirstVersion (mid ++ v :: rest) = xs ++ rest := by
  induction mid with
  | nil => exact ⟨[], by simp [afterFirstVersion, hv]⟩
  | cons m mid ih =>
    by_cases hm : isVersionSeg m = true
    · exact ⟨mid ++ [v], by simp [afterFirstVersion, hm]⟩
    · obtain ⟨xs, hxs⟩ := ih
      exact ⟨xs, by simp [afterFirstVersion, hm, hxs]⟩

/-- C9: an input in which a second name and version pair follows the first is rejected.
The input is made of segments joined by `/`: the outer name `first`, any segments `mid`,
a version segment `v1` (one that begins with the version marker), any segments
`between`, then a segment `n2` that is no version segment directly followed by a version
segment `v2`, and any segments `post`. So is the nested identity of the test case
`with-label`. -/
theorem ParseVersionString_nested (first : List Char) (mid : List (List Char))
    (v1 : List Char) (between : List (List Char)) (n2 v2 : List Char)
    (post : List (List Char))
    (hsegs : ∀ t ∈ first :: (mid ++ v1 :: (between ++ n2 :: v2 :: post)), '/' ∉ t)
    (hv1 : isVersionSeg v1 = true) (hn2 : isVersionSeg n2 = false)
    (hv2 : isVersionSeg v2 = true) :
    ParseVersionString
      (String.mk (joinSegs (first :: (mid ++ v1 :: (between ++ n2 :: v2 :: post))))) = none ∧
    ParseVersionString
      "Q-Client/v1.0.8-stable/Geth/v1.10.8-stable-825470ee/linux-amd64/go1.16.15" = none := by
  refine ⟨?_, by decide⟩
  unfold ParseVersionString
  simp only
  split
  · rfl
  · rw [splitOn_joinSegs first _ hsegs]
    obtain ⟨xs, hxs⟩ := afterFirstVersion_suffix mid v1 (between ++ n2 :: v2 :: post) hv1
    have hpair : secondPair (afterFirstVersion
        (mid ++ v1 :: (between ++ n2 :: v2 :: post))) = true := by
      rw [hxs, ← List.append_assoc]
      exact secondPair_append _ n2 v2 post hn2 hv2
    simp [hpair]

/-- C9 at the segments of the test case `with-label`: `Q-Client` with version
`v1.0.8-stable`, wrapped around `Geth` with version `v1.10.8-stable-825470ee`. -/
theorem ParseVersionString_nested_witness :
    ParseVersionString (String.mk (joinSegs
      ["Q-Client".data, "v1.0.8-stable".data, "Geth".data, "v1.10.8-stable-825470ee".data,
       "linux-amd64".data, "go1.16.15".data])) = none ∧
    String.mk (joinSegs
      ["Q-Client".data, "v1.0.8-stable".data, "Geth".data, "v1.10.8-stable-825470ee".data,
       "linux-amd64".data, "go1.16.15".data])
      = "Q-Client/v1.0.8-stable/Geth/v1.10.8-stable-825470ee/linux-amd64/go1.16.15" :=
  ⟨(ParseVersionString_nested "Q-Client".data [] "v1.0.8-stable".data [] "Geth".data
      "v1.10.8-stable-825470ee".data ["linux-amd64".data, "go1.16.15".data]
      (by decide) (by decide) (by decide) (by decide)).1, by decide⟩

theorem hasSchemeMarker_cons (x : Char) (t : List Char) :
    hasSchemeMarker (x :: t) = (List.isPrefixOf [':', '/', '/'] (x :: t) || hasSchemeMarker t) :=
  rfl

theorem hasSchemeMarker_of_not_mem (l : List Char) (h : '/' ∉ l) :
    hasSchemeMarker l = false := by
  induction l with
  | nil => rfl
  | cons x t ih =>
    have ht : '/' ∉ t := fun m => h (List.mem_cons_of_mem _ m)
    rw [hasSchemeMarker_cons, ih ht, Bool.or_false]
    cases t with
    | nil => simp [List.isPrefixOf]
    | cons y u =>
      have hy : '/' ≠ y := fun e => ht (e ▸ List.mem_cons_self _ _)
      simp [List.isPrefixOf, hy]

theorem hasSchemeMarker_append (l r : List Char) (h : '/' ∉ l) (hr : r.head? ≠ some '/') :
    hasSchemeMarker (l ++ '/' :: r) = hasSchemeMarker r := by
  induction l with
  | nil =>
    rw [List.nil_append, hasSchemeMarker_cons]
    simp [List.isPrefixOf]
  | cons x t ih =>
    have ht : '/' ∉ t := fun m => h (List.mem_cons_of_mem _ m)
    rw [List.cons_append, hasSchemeMarker_cons, ih ht]
    have hpre : List.isPrefixOf [':', '/', '/'] (x :: (t ++ '/' :: r)) = false := by
      cases t with
      | nil =>
        cases r with
        | nil => simp [List.isPrefixOf]
        | cons c r' =>
          have hc : '/' ≠ c := fun e => hr (by simp [← e])
          simp [List.isPrefixOf, hc]
      | cons y u =>
        have hy : '/' ≠ y := fun e => ht (e ▸ List.mem_cons_self _ _)
        simp [List.isPrefixOf, hy]
    rw [hpre, Bool.false_or]

theorem head?_append_ne (s rest : List Char) (hne : s ≠ []) (h : '/' ∉ s) :
    (s ++ rest).head? ≠ some '/' := by
  cases s with
  | nil => exact absurd rfl hne
  | cons c t =>
    have hc : c ≠ '/' := fun e => h (e ▸ List.mem_cons_self _ _)
    simpa using hc

theorem joinSegs_cons_cons (s t : List Char) (ts : List (List Char)) :
    joinSegs (s :: t :: ts) = s ++ '/' :: joinSegs (t :: ts) := rfl

theorem joinSegs_head? (s : List Char) (segs : List (List Char)) (hne : s ≠ [])
    (h : '/' ∉ s) : (joinSegs (s :: segs)).head? ≠ some '/' := by
  cases segs with
  | nil => simpa [joinSegs] using head?_append_ne s [] hne h
  | cons t ts =>
    rw [joinSegs_cons_cons]
    exact head?_append_ne s _ hne h

/-- Segments that are not empty and hold no `/`, joined by `/`, hold no scheme
marker. -/
theorem hasSchemeMarker_joinSegs (segs : List (List Char))
    (h : ∀ t ∈ segs, t ≠ [] ∧ '/' ∉ t) : hasSchemeMarker (joinSegs segs) = false := by
  induction segs with
  | nil => rfl
  | cons s ts ih =>
    have hs := h s (List.mem_cons_self _ _)
    have hts : ∀ t ∈ ts, t ≠ [] ∧ '/' ∉ t := fun t ht => h t (List.mem_cons_of_mem _ ht)
    cases ts with
    | nil => simpa [joinSegs] using hasSchemeMarker_of_not_mem s hs.2
    | cons t us =>
      have ht := hts t (List.mem_cons_self _ _)
      rw [joinSegs_cons_cons,
        hasSchemeMarker_append s _ hs.2 (joinSegs_head? t us ht.1 ht.2)]
      exact ih hts

theorem digitsValue_append (cs : List Char) (c : Char) :
    digitsValue (cs ++ [c]) = 10 * digitsValue cs + (c.toNat - 48) := by
  simp [digitsValue, List.foldl_append]

/-- The number the parser reads off a digit sequence is the one the digits denote. -/
theorem digitsValue_eq (cs : List Char) : digitsValue cs = decimalValue cs := by
  induction cs using List.reverseRecOn with
  | nil => simp [digitsValue, decimalValue]
  | append_singleton cs c ih =>
    rw [digitsValue_append, ih]
    simp [decimalValue, Nat.ofDigits_cons, Nat.add_comm]

theorem isDigit_ne (c x : Char) (hc : c.isDigit = true) (hx : x.isDigit = false) : c ≠ x := by
  intro e
  rw [e, hx] at hc
  cases hc

theorem isAlphanum_ne (c x : Char) (hc : c.isAlphanum = true) (hx : x.isAlphanum = false) :
    c ≠ x := by
  intro e
  rw [e, hx] at hc
  cases hc

theorem not_mem_of_digits (x : Char) (cs : List Char) (h : ∀ c ∈ cs, c.isDigit = true)
    (hx : x.isDigit = false) : x ∉ cs :=
  fun m => isDigit_ne x x (h x m) hx rfl

theorem not_mem_of_alphanum (x : Char) (cs : List Char) (h : ∀ c ∈ cs, c.isAlphanum = true)
    (hx : x.isAlphanum = false) : x ∉ cs :=
  fun m => isAlphanum_ne x x (h x m) hx rfl

theorem parseNat_digits (cs : List Char) (hne : cs ≠ []) (h : ∀ c ∈ cs, c.isDigit = true) :
    parseNat cs = some (decimalValue cs) := by
  have hall : cs.all Char.isDigit = true := List.all_eq_true.2 h
  simp [parseNat, hne, hall, digitsValue_eq]

theorem parseTriple_digits (a b c : List Char)
    (ha : a ≠ [] ∧ ∀ x ∈ a, x.isDigit = true) (hb : b ≠ [] ∧ ∀ x ∈ b, x.isDigit = true)
    (hc : c ≠ [] ∧ ∀ x ∈ c, x.isDigit = true) :
    parseTriple (a ++ '.' :: (b ++ '.' :: c))
      = some (decimalValue a, decimalValue b, decimalValue c) := by
  have hdot : ('.' : Char).isDigit = false := by decide
  unfold parseTriple
  rw [splitOn_append_sep '.' a _ (not_mem_of_digits '.' a ha.2 hdot),
    splitOn_append_sep '.' b _ (not_mem_of_digits '.' b hb.2 hdot),
    splitOn_of_not_mem '.' c (not_mem_of_digits '.' c hc.2 hdot)]
  simp [parseNat_digits a ha.1 ha.2, parseNat_digits b hb.1 hb.2, parseNat_digits c hc.1 hc.2]

theorem classify_some (ts : List (List Char))
    (h : ∀ t ∈ ts, t ≠ [] ∧ ∀ c ∈ t, c.isAlphanum = true) (q : Qualifiers) :
    ∃ q', classify ts q = some q' := by
  induction ts generalizing q with
  | nil => exact ⟨q, rfl⟩
  | cons t ts ih =>
    have ht := h t (List.mem_cons_self _ _)
    have hts : ∀ u ∈ ts, u ≠ [] ∧ ∀ c ∈ u, c.isAlphanum = true :=
      fun u hu => h u (List.mem_cons_of_mem _ hu)
    have hq : isQualifier t = true := by
      have hall : t.all Char.isAlphanum = true := List.all_eq_true.2 ht.2
      cases t with
      | nil => exact absurd rfl ht.1
      | cons c u => simpa [isQualifier] using hall
    by_cases hd : isDate t = true
    · obtain ⟨q', hq'⟩ := ih hts { q with Date := String.mk t }
      exact ⟨q', by simp [classify, hd, hq']⟩
    · by_cases hT : q.Tag = ""
      · obtain ⟨q', hq'⟩ := ih hts { q with Tag := lower t }
        exact ⟨q', by simp [classify, hd, hq, hT, hq']⟩
      · obtain ⟨q', hq'⟩ := ih hts { q with Build := String.mk t }
        exact ⟨q', by simp [classify, hd, hq, hT, hq']⟩

/-- The version segment of a well-formed version string parses to its three numbers. -/
theorem parseVersion_versionSegment (major minor patch : List Char) (quals : List (List Char))
    (hmajor : major ≠ [] ∧ ∀ c ∈ major, c.isDigit = true)
    (hminor : minor ≠ [] ∧ ∀ c ∈ minor, c.isDigit = true)
    (hpatch : patch ≠ [] ∧ ∀ c ∈ patch, c.isDigit = true)
    (hquals : ∀ q ∈ quals, q ≠ [] ∧ ∀ c ∈ q, c.isAlphanum = true) :
    ∃ v, parseVersion (versionSegment major minor patch quals) = some v ∧
      v.Major = decimalValue major ∧ v.Minor = decimalValue minor ∧
      v.Patch = decimalValue patch := by
  have hhy : ('-' : Char).isDigit = false := by decide
  have hhy' : ('-' : Char).isAlphanum = false := by decide
  have hdot : '-' ≠ '.' := by decide
  have hcore : '-' ∉ major ++ '.' :: (minor ++ '.' :: patch) := by
    simp only [List.mem_append, List.mem_cons, not_or]
    exact ⟨not_mem_of_digits '-' major hmajor.2 hhy, hdot,
      not_mem_of_digits '-' minor hminor.2 hhy, hdot,
      not_mem_of_digits '-' patch hpatch.2 hhy⟩
  have hq : ∀ q ∈ quals, '-' ∉ q := fun q hq => not_mem_of_alphanum '-' q (hquals q hq).2 hhy'
  obtain ⟨q', hq'⟩ := classify_some quals hquals { Tag := "", Build := "", Date := "" }
  refine ⟨{ Major := decimalValue major, Minor := decimalValue minor,
            Patch := decimalValue patch, Tag := q'.Tag, Build := q'.Build, Date := q'.Date },
    ?_, rfl, rfl, rfl⟩
  unfold versionSegment parseVersion
  simp only [List.cons_append]
  rw [splitOn_tokens '-' _ quals hcore hq]
  simp only [parseTriple_digits major minor patch hmajor hminor hpatch, hq']

theorem takeWhile_dropWhile_append (p : Char → Bool) (l r : List Char)
    (hl : ∀ c ∈ l, p c = true) (hr : ∀ c, r.head? = some c → p c = false) :
    (l ++ r).takeWhile p = l ∧ (l ++ r).dropWhile p = r := by
  induction l with
  | nil =>
    cases r with
    | nil => simp
    | cons c r' =>
      have hc : p c = false := hr c rfl
      simp [List.takeWhile, List.dropWhile, hc]
  | cons x t ih =>
    have hx : p x = true := hl x (List.mem_cons_self _ _)
    have ht := ih (fun c hc => hl c (List.mem_cons_of_mem _ hc))
    simp [List.takeWhile, List.dropWhile, hx, ht.1, ht.2]

theorem knownOS_chars (os : List Char) (h : String.mk os ∈ knownOS) :
    os ≠ [] ∧ '/' ∉ os ∧ '-' ∉ os := by
  simp only [knownOS, List.mem_cons, List.mem_singleton, List.not_mem_nil, or_false] at h
  rcases h with h | h | h
  · have e : os = "linux".data := congrArg String.data h
    subst e; decide
  · have e : os = "windows".data := congrArg String.data h
    subst e; decide
  · have e : os = "darwin".data := congrArg String.data h
    subst e; decide

theorem knownLanguages_chars (lang : List Char) (h : String.mk lang ∈ knownLanguages) :
    lang ≠ [] ∧ '/' ∉ lang ∧ '-' ∉ lang ∧ lang.head? ≠ some 'v' ∧
      (∀ c ∈ lang, c.isDigit = false) ∧ lower lang = String.mk lang := by
  simp only [knownLanguages, List.mem_cons, List.mem_singleton, List.not_mem_nil,
    or_false] at h
  rcases h with h | h | h
  · have e : lang = "go".data := congrArg String.data h
    subst e; decide
  · have e : lang = "rustc".data := congrArg String.data h
    subst e; decide
  · have e : lang = "java".data := congrArg String.data h
    subst e; decide

theorem isDottedNumber_spec (ver : List Char) (h : isDottedNumber ver = true) :
    ∃ d rest, ver = d :: rest ∧ d.isDigit = true ∧
      ∀ c ∈ rest, (c.isDigit || c == '.') = true := by
  cases ver with
  | nil => simp [isDottedNumber] at h
  | cons d rest =>
    simp only [isDottedNumber, Bool.and_eq_true, List.all_eq_true] at h
    exact ⟨d, rest, rfl, h.1, h.2⟩

theorem not_mem_dotted (x : Char) (ver : List Char) (h : isDottedNumber ver = true)
    (hx : x.isDigit = false) (hdot : x ≠ '.') : x ∉ ver := by
  obtain ⟨d, rest, rfl, hd, hrest⟩ := isDottedNumber_spec ver h
  intro m
  rcases List.mem_cons.1 m with e | m
  · rw [← e, hx] at hd
    cases hd
  · have := hrest x m
    simp [hx, hdot] at this

theorem parseOS_known (os arch : List Char) (hos : String.mk os ∈ knownOS)
    (harch : arch ≠ []) :
    parseOS (os ++ '-' :: arch) = { Os := String.mk os, Architecture := String.mk arch } := by
  obtain ⟨_, _, hhy⟩ := knownOS_chars os hos
  have hsplit := takeWhile_dropWhile_append (fun c => c != '-') os ('-' :: arch)
    (fun c hc => by
      have : c ≠ '-' := fun e => hhy (e ▸ hc)
      simpa using this)
    (fun c hc => by
      have : c = '-' := by simpa using hc.symm
      simp [this])
  unfold parseOS
  simp only [hsplit.1, hsplit.2]
  simp [hos, harch]

theorem parseLanguage_known (lang ver : List Char) (hlang : String.mk lang ∈ knownLanguages)
    (hver : isDottedNumber ver = true) :
    parseLanguage (lang ++ ver) = some { Name := String.mk lang, Version := String.mk ver } := by
  obtain ⟨_, _, hhy, _, hnodigit, hlower⟩ := knownLanguages_chars lang hlang
  obtain ⟨d, rest, hd, hdigit, _⟩ := isDottedNumber_spec ver hver
  have hno : '-' ∉ lang ++ ver := by
    simp only [List.mem_append, not_or]
    exact ⟨hhy, not_mem_dotted '-' ver hver (by decide) (by decide)⟩
  have hsplit := takeWhile_dropWhile_append (fun c => !c.isDigit) lang ver
    (fun c hc => by simp [hnodigit c hc])
    (fun c hc => by
      rw [hd] at hc
      have : c = d := by simpa using hc.symm
      simp [this, hdigit])
  unfold parseLanguage
  simp only [hno, if_false, hsplit.1, hsplit.2, hlower]
  simp [hlang, hver]

theorem isDigit_isAlphanum (c : Char) (h : c.isDigit = true) : c.isAlphanum = true := by
  simp [Char.isAlphanum, h]

theorem not_mem_versionSegment (x : Char) (major minor patch : List Char)
    (quals : List (List Char))
    (hmajor : ∀ c ∈ major, c.isDigit = true) (hminor : ∀ c ∈ minor, c.isDigit = true)
    (hpatch : ∀ c ∈ patch, c.isDigit = true)
    (hquals : ∀ q ∈ quals, q ≠ [] ∧ ∀ c ∈ q, c.isAlphanum = true)
    (hx : x.isAlphanum = false) (hdot : x ≠ '.') (hhy : x ≠ '-') :
    x ∉ versionSegment major minor patch quals := by
  have hxd : x.isDigit = false := by
    cases h : x.isDigit with
    | false => rfl
    | true => rw [isDigit_isAlphanum x h] at hx; cases hx
  have hv : x ≠ 'v' := fun e => by rw [e] at hx; revert hx; decide
  unfold versionSegment
  simp only [List.cons_append, List.mem_cons, List.mem_append, List.mem_flatten,
    List.mem_map, not_or, not_exists, not_and]
  refine ⟨hv, ⟨not_mem_of_digits x major hmajor hxd, hdot,
    not_mem_of_digits x minor hminor hxd, hdot, not_mem_of_digits x patch hpatch hxd⟩, ?_⟩
  intro l hl hm
  obtain ⟨q, hq, rfl⟩ := hl
  rcases List.mem_cons.1 hm with e | m
  · exact hhy e
  · exact not_mem_of_alphanum x q (hquals q hq).2 hx m

theorem joinHyphens_cons_cons (s t : List Char) (ts : List (List Char)) :
    joinHyphens (s :: t :: ts) = s ++ '-' :: joinHyphens (t :: ts) := rfl

/-- Splitting at hyphens undoes joining by hyphens, for tokens without hyphen. -/
theorem splitOn_joinHyphens (s : List Char) (segs : List (List Char))
    (h : ∀ t ∈ s :: segs, '-' ∉ t) : splitOn '-' (joinHyphens (s :: segs)) = s :: segs := by
  induction segs generalizing s with
  | nil => simpa [joinHyphens] using splitOn_of_not_mem '-' s (h s (List.mem_cons_self _ _))
  | cons t ts ih =>
    have hs : '-' ∉ s := h s (List.mem_cons_self _ _)
    have ht : ∀ u ∈ t :: ts, '-' ∉ u := fun u hu => h u (List.mem_cons_of_mem _ hu)
    rw [joinHyphens_cons_cons, splitOn_append_sep '-' s _ hs, ih t ht]

theorem not_mem_joinHyphens (x : Char) (segs : List (List Char)) (hx : x ≠ '-')
    (h : ∀ t ∈ segs, x ∉ t) : x ∉ joinHyphens segs := by
  induction segs with
  | nil => simp [joinHyphens]
  | cons s ts ih =>
    have hs : x ∉ s := h s (List.mem_cons_self _ _)
    have hts : ∀ t ∈ ts, x ∉ t := fun t ht => h t (List.mem_cons_of_mem _ ht)
    cases ts with
    | nil => simpa [joinHyphens] using hs
    | cons t us =>
      rw [joinHyphens_cons_cons]
      simp only [List.mem_append, List.mem_cons, not_or]
      exact ⟨hs, hx, ih hts⟩

theorem mem_joinHyphens (vendor : List (List Char)) (a b : List Char) :
    '-' ∈ joinHyphens (vendor ++ [a, b]) := by
  induction vendor with
  | nil => simp [joinHyphens]
  | cons v vs ih =>
    cases vs with
    | nil => simp [joinHyphens]
    | cons w ws =>
      rw [List.cons_append, List.cons_append, joinHyphens_cons_cons]
      exact List.mem_append_right _ (List.mem_cons_of_mem _ ih)

/-- The hyphen-joined runtime segment parses to the runtime name and the trailing
token, whatever the vendor qualifiers before them. -/
theorem parseLanguage_hyphens (vendor : List (List Char)) (lang version : List Char)
    (hlang : String.mk lang ∈ knownLanguages) (hvendor : ∀ t ∈ vendor, '-' ∉ t)
    (hne : version ≠ []) (hversion : '-' ∉ version) :
    parseLanguage (joinHyphens (vendor ++ [lang, version]))
      = some { Name := String.mk lang, Version := String.mk version } := by
  obtain ⟨_, _, hhy, _, _, hlower⟩ := knownLanguages_chars lang hlang
  have htoks : ∀ t ∈ vendor ++ [lang, version], '-' ∉ t := by
    intro t ht
    rcases List.mem_append.1 ht with h | h
    · exact hvendor t h
    · simp only [List.mem_cons, List.mem_singleton, List.not_mem_nil, or_false] at h
      rcases h with rfl | rfl
      · exact hhy
      · exact hversion
  have hsplit : splitOn '-' (joinHyphens (vendor ++ [lang, version]))
      = vendor ++ [lang, version] := by
    cases vendor with
    | nil => exact splitOn_joinHyphens lang [version] htoks
    | cons v vs => exact splitOn_joinHyphens v (vs ++ [lang, version]) htoks
  unfold parseLanguage
  simp only [mem_joinHyphens vendor lang version, if_true, hsplit, List.reverse_append,
    List.reverse_cons, List.reverse_nil, List.nil_append, List.cons_append, hlower]
  simp [hlang, hne]

/-- A runtime segment of either shape is not empty, holds no `/` and parses to the
runtime name and the version. -/
theorem parseLanguage_runtime (lang version runtime : List Char)
    (hlang : String.mk lang ∈ knownLanguages) (h : IsRuntimeSegment lang version runtime) :
    runtime ≠ [] ∧ '/' ∉ runtime ∧
      parseLanguage runtime = some { Name := String.mk lang, Version := String.mk version } := by
  obtain ⟨hlangne, hlangslash, _, _, _, _⟩ := knownLanguages_chars lang hlang
  rcases h with ⟨rfl, hversion⟩ | ⟨vendor, rfl, hvendor, hne, hhy, hslash⟩
  · refine ⟨by simp [hlangne], ?_, parseLanguage_known lang version hlang hversion⟩
    simp only [List.mem_append, not_or]
    exact ⟨hlangslash, not_mem_dotted '/' version hversion (by decide) (by decide)⟩
  · refine ⟨?_, ?_, parseLanguage_hyphens vendor lang version hlang
      (fun t ht => (hvendor t ht).1) hne hhy⟩
    · intro hnil
      have := mem_joinHyphens vendor lang version
      rw [hnil] at this
      cases this
    · apply not_mem_joinHyphens '/' _ (by decide)
      intro t ht
      rcases List.mem_append.1 ht with h | h
      · exact (hvendor t h).2
      · simp only [List.mem_cons, List.mem_singleton, List.not_mem_nil, or_false] at h
        rcases h with rfl | rfl
        · exact hlangslash
        · exact hslash

/-- C8, as the parser has it: a well-formed version string
`Name/vMAJOR.MINOR.PATCH[-qualifiers]/os-arch/lang-version` whose runtime segment does
not begin with the version marker parses to a record. The name holds no `/` and is not
empty; the three components are digit sequences, leading zeros allowed; the qualifiers
are non-empty sequences of letters and digits; the operating-system name and the runtime
name are recognized ones; the architecture is not empty and holds no `/`; the runtime
segment has one of the two shapes of rule 5, the name and a dotted number side by side
or name and version hyphen-joined behind any vendor qualifiers. The record has the
lowercased name, the numeric values of the three components, the pair `(os, arch)` and
the pair `(runtime name, version)`. The perfect case of the tests,
`Geth/v1.10.3-stable-991384a7/linux-amd64/go1.16.3`, parses to the record the test
expects. -/
theorem ParseVersionString_wellFormed (name major minor patch : List Char)
    (quals : List (List Char)) (os arch lang version runtime : List Char)
    (hname : name ≠ [] ∧ '/' ∉ name)
    (hmajor : major ≠ [] ∧ ∀ c ∈ major, c.isDigit = true)
    (hminor : minor ≠ [] ∧ ∀ c ∈ minor, c.isDigit = true)
    (hpatch : patch ≠ [] ∧ ∀ c ∈ patch, c.isDigit = true)
    (hquals : ∀ q ∈ quals, q ≠ [] ∧ ∀ c ∈ q, c.isAlphanum = true)
    (hos : String.mk os ∈ knownOS) (harch : arch ≠ [] ∧ '/' ∉ arch)
    (hlang : String.mk lang ∈ knownLanguages)
    (hruntime : IsRuntimeSegment lang version runtime)
    (hmarker : isVersionSeg runtime = false) :
    (∃ info, ParseVersionString
        (versionString name major minor patch quals os arch runtime) = some info ∧
      info.Name = lower name ∧
      info.Version.Major = decimalValue major ∧
      info.Version.Minor = decimalValue minor ∧
      info.Version.Patch = decimalValue patch ∧
      info.Os = { Os := String.mk os, Architecture := String.mk arch } ∧
      info.Language = { Name := String.mk lang, Version := String.mk version }) ∧
    ParseVersionString "Geth/v1.10.3-stable-991384a7/linux-amd64/go1.16.3" =
      some { Name := "geth", Label := "",
             Version := { Major := 1, Minor := 10, Patch := 3, Tag := "stable",
                          Build := "991384a7", Date := "" },
             Os := { Os := "linux", Architecture := "amd64" },
             Language := { Name := "go", Version := "1.16.3" } } := by
  refine ⟨?_, by decide⟩
  obtain ⟨hosne, hosslash, _⟩ := knownOS_chars os hos
  obtain ⟨hrne, hrslash, hrparse⟩ := parseLanguage_runtime lang version runtime hlang hruntime
  obtain ⟨v, hv, hvmaj, hvmin, hvpat⟩ :=
    parseVersion_versionSegment major minor patch quals hmajor hminor hpatch hquals
  have hvs : '/' ∉ versionSegment major minor patch quals :=
    not_mem_versionSegment '/' major minor patch quals hmajor.2 hminor.2 hpatch.2 hquals
      (by decide) (by decide) (by decide)
  have hvsv : isVersionSeg (versionSegment major minor patch quals) = true := by
    simp [versionSegment, isVersionSeg]
  have hsegs : ∀ t ∈ [name, versionSegment major minor patch quals, os ++ '-' :: arch,
      runtime], t ≠ [] ∧ '/' ∉ t := by
    intro t ht
    simp only [List.mem_cons, List.mem_singleton, List.not_mem_nil, or_false] at ht
    rcases ht with rfl | rfl | rfl | rfl
    · exact hname
    · exact ⟨by simp [versionSegment], hvs⟩
    · refine ⟨by simp, ?_⟩
      simp only [List.mem_append, List.mem_cons, not_or]
      exact ⟨hosslash, by decide, harch.2⟩
    · exact ⟨hrne, hrslash⟩
  have hscheme := hasSchemeMarker_joinSegs _ hsegs
  have hsplit := splitOn_joinSegs name [versionSegment major minor patch quals,
    os ++ '-' :: arch, runtime] (fun t ht => (hsegs t ht).2)
  refine ⟨{ nameOnly (lower name) with
      Version := v, Os := parseOS (os ++ '-' :: arch),
      Language := { Name := String.mk lang, Version := String.mk version } }, ?_,
    rfl, hvmaj, hvmin, hvpat, parseOS_known os arch hos harch.1, rfl⟩
  unfold ParseVersionString versionString
  simp only [hscheme, hsplit, List.tail_cons, afterFirstVersion, hvsv, if_true]
  simp only [secondPair, hmarker, Bool.and_false, Bool.or_false, Bool.false_eq_true,
    if_false]
  simp only [parseSegments, hname.1, if_false, hvsv, if_true, hv, hrparse]
  simp [lower, nameOnly]

/-- C8 at the parts of two test cases. The perfect case: name `Geth`, version `1.10.3`
with qualifiers `stable` and `991384a7`, `linux` on `amd64`, `go` at `1.16.3` side by
side. The case `java`: name `besu`, version `21.7.0` with qualifier `RC1`, `darwin` on
`x86_64`, `java` at `11` hyphen-joined behind the vendor qualifier `corretto`. -/
theorem ParseVersionString_wellFormed_witness :
    versionString "Geth".data "1".data "10".data "3".data ["stable".data, "991384a7".data]
        "linux".data "amd64".data "go1.16.3".data
      = "Geth/v1.10.3-stable-991384a7/linux-amd64/go1.16.3" ∧
    (∃ info, ParseVersionString
        (versionString "Geth".data "1".data "10".data "3".data
          ["stable".data, "991384a7".data] "linux".data "amd64".data "go1.16.3".data)
          = some info ∧
      info.Name = lower "Geth".data ∧
      info.Version.Major = decimalValue "1".data ∧
      info.Version.Minor = decimalValue "10".data ∧
      info.Version.Patch = decimalValue "3".data ∧
      info.Os = { Os := "linux", Architecture := "amd64" } ∧
      info.Language = { Name := "go", Version := "1.16.3" }) ∧
    versionString "besu".data "21".data "7".data "0".data ["RC1".data]
        "darwin".data "x86_64".data "corretto-java-11".data
      = "besu/v21.7.0-RC1/darwin-x86_64/corretto-java-11" ∧
    (∃ info, ParseVersionString
        (versionString "besu".data "21".data "7".data "0".data ["RC1".data]
          "darwin".data "x86_64".data "corretto-java-11".data) = some info ∧
      info.Name = lower "besu".data ∧
      info.Version.Major = decimalValue "21".data ∧
      info.Version.Minor = decimalValue "7".data ∧
      info.Version.Patch = decimalValue "0".data ∧
      info.Os = { Os := "darwin", Architecture := "x86_64" } ∧
      info.Language = { Name := "java", Version := "11" }) :=
  ⟨by decide,
   (ParseVersionString_wellFormed "Geth".data "1".data "10".data "3".data
      ["stable".data, "991384a7".data] "linux".data "amd64".data "go".data "1.16.3".data
      "go1.16.3".data
      (by decide) (by decide) (by decide) (by decide) (by decide) (by decide) (by decide)
      (by decide) (Or.inl ⟨rfl, by decide⟩) (by decide)).1,
   by decide,
   (ParseVersionString_wellFormed "besu".data "21".data "7".data "0".data
      ["RC1".data] "darwin".data "x86_64".data "java".data "11".data
      "corretto-java-11".data
      (by decide) (by decide) (by decide) (by decide) (by decide) (by decide) (by decide)
      (by decide)
      (Or.inr ⟨["corretto".data], rfl, by decide, by decide, by decide, by decide⟩)
      (by decide)).1⟩

/-- C8 fails as stated: the string `besu/v21.7.0-RC1/darwin-x86_64/vendor-java-11` has
the shape of the claim, with the recognized names `darwin` and `java`, and its runtime
segment alone parses to `java` at `11`; but that segment begins with the version marker
behind a segment that does not, which the parser takes for a second name and version
pair: the result is nil. -/
theorem ParseVersionString_vendor_marker :
    versionString "besu".data "21".data "7".data "0".data ["RC1".data]
        "darwin".data "x86_64".data "vendor-java-11".data
      = "besu/v21.7.0-RC1/darwin-x86_64/vendor-java-11" ∧
    "vendor-java-11".data = joinHyphens ["vendor".data, "java".data, "11".data] ∧
    String.mk "darwin".data ∈ knownOS ∧ String.mk "java".data ∈ knownLanguages ∧
    parseLanguage "vendor-java-11".data = some { Name := "java", Version := "11" } ∧
    isVersionSeg "vendor-java-11".data = true ∧
    ParseVersionString "besu/v21.7.0-RC1/darwin-x86_64/vendor-java-11" = none := by
  decide

/-- The cases of `TestParseVersionString` hold of the parser. -/
theorem ParseVersionString_tests :
    ParseVersionString "geth" = some (nameOnly "geth") ∧
    ParseVersionString "CoreGeth/v1.12.16-unstable-bd227f23-20231103/linux-amd64/go1.21.3" =
      some { Name := "coregeth", Label := "",
             Version := { Major := 1, Minor := 12, Patch := 16, Tag := "unstable",
                          Build := "bd227f23", Date := "20231103" },
             Os := { Os := "linux", Architecture := "amd64" },
             Language := { Name := "go", Version := "1.21.3" } } ∧
    ParseVersionString "CoreGeth/ETCMCgethNode/v1.12.10-stable-4d217763/windows-amd64/go1.18.5" =
      some { Name := "coregeth", Label := "etcmcgethnode",
             Version := { Major := 1, Minor := 12, Patch := 10, Tag := "stable",
                          Build := "4d217763", Date := "" },
             Os := { Os := "windows", Architecture := "amd64" },
             Language := { Name := "go", Version := "1.18.5" } } ∧
    ParseVersionString "Geth/v1.10.4-stable/linux-x64/go1.16.4" =
      some { Name := "geth", Label := "",
             Version := { Major := 1, Minor := 10, Patch := 4, Tag := "stable",
                          Build := "", Date := "" },
             Os := { Os := "linux", Architecture := "x64" },
             Language := { Name := "go", Version := "1.16.4" } } ∧
    ParseVersionString "besu/v21.7.0-RC1/darwin-x86_64/corretto-java-11" =
      some { Name := "besu", Label := "",
             Version := { Major := 21, Minor := 7, Patch := 0, Tag := "rc1",
                          Build := "", Date := "" },
             Os := { Os := "darwin", Architecture := "x86_64" },
             Language := { Name := "java", Version := "11" } } ∧
    ParseVersionString "erigon/v2021.06.5-alpha-a0694dd3/windows-x86_64/go1.16.5" =
      some { Name := "erigon", Label := "",
             Version := { Major := 2021, Minor := 6, Patch := 5, Tag := "alpha",
                          Build := "a0694dd3", Date := "" },
             Os := { Os := "windows", Architecture := "x86_64" },
             Language := { Name := "go", Version := "1.16.5" } } ∧
    ParseVersionString
        "OpenEthereum/v3.2.6-stable-f9f4926-20210514/x86_64-linux-gnu/rustc1.52.1" =
      some { Name := "openethereum", Label := "",
             Version := { Major := 3, Minor := 2, Patch := 6, Tag := "stable",
                          Build := "f9f4926", Date := "20210514" },
             Os := { Os := "", Architecture := "" },
             Language := { Name := "rustc", Version := "1.52.1" } } ∧
    ParseVersionString "Geth/enode://91a3c3d5e76b0acf05d9abddee959f1bcbc7c91537d2629288a9edd7a3df90acaa46ffba0e0e5d49a20598e0960ac458d76eb8fa92a1d64938c0a3a3d60f8be4@127.0.0.1:21000/v1.10.0-stable(quorum-v22.1.0)/linux-amd64/go1.17.2" = none := by
  refine ⟨by decide, by decide, by decide, by decide, by decide, by decide, by decide, ?_⟩
  decide

end vparser

end NodeCrawler
